import Mathlib

/-!
# Verification of the oeselect selection engine

A shallow embedding, in Lean 4, of the PyMOL-style atom-selection library
`oeselect` (C++ sources: `src/Parser.cpp`, `src/Predicate.cpp`,
`src/Context.cpp`, `src/SpatialIndex.cpp`, `src/Tagger.cpp`,
`src/Selection.cpp` and the headers under `include/oeselect/`).

Modelling conventions:
* C++ `std::string` is modelled as `List Char` (`Str`); lexicographic
  comparison on ASCII strings agrees with the C++ byte comparison.
* The C++ `float` radius of the distance predicates is modelled as an exact
  signed decimal (`DecF`).  This is faithful to IEEE single precision for
  decimal literals of at most six significant digits (`FLT_DIG = 6`, the
  precision used by `FormatRadius`); rounding beyond that precision is not
  modelled.
* Machine integers: `std::stoi` overflow (beyond `INT_MAX`) and `std::stof`
  overflow (beyond `FLT_MAX`) are modelled explicitly as thrown exceptions,
  as in the C++ run-time.
* The recursive evaluator and the recursive-descent PEG parser are written
  with an explicit fuel argument so that every definition is structurally
  recursive and computable by kernel reduction; the public entry points
  supply fuel that provably suffices.  Fuel is a termination artifact only.
* Host-library services (OEChem) are modelled at their interface boundary:
  an atom is a record of the fields the library reads, and
  `OEGetAtomicNum` is a representative case-insensitive symbol table
  (unknown symbols map to 0, as in OEChem).
-/

namespace OESel

/-! ## Strings as character lists -/

/-- C++ `std::string`, modelled as a list of characters. -/
abbrev Str := List Char

/-- Coerce a Lean string literal to the `Str` model. -/
def str (s : String) : Str := s.data

/-- Lexicographic strict comparison, mirroring `std::string operator<`
(byte-wise comparison; identical to code-point comparison on ASCII). -/
def strLt : Str → Str → Bool
  | [], [] => false
  | [], _ :: _ => true
  | _ :: _, [] => false
  | a :: as, b :: bs => if a = b then strLt as bs else decide (a.val < b.val)

/-- Insert into a `strLt`-sorted list (helper for `sortStrs`). -/
def insertStr (x : Str) : List Str → List Str
  | [] => [x]
  | y :: ys => if strLt y x then y :: insertStr x ys else x :: y :: ys

/-- `std::sort` on a vector of canonical strings: `operator<` on
`std::string` is a strict total order, so `std::sort` produces the unique
`≤`-sorted permutation; we model it by insertion sort. -/
def sortStrs : List Str → List Str
  | [] => []
  | x :: xs => insertStr x (sortStrs xs)

/-- Join a list of strings with a separator (the canonical-form
`"(" + parts[0] + " op " + parts[1] + ...` accumulation loop). -/
def joinSep (sep : Str) : List Str → Str
  | [] => []
  | [x] => x
  | x :: y :: rest => x ++ sep ++ joinSep sep (y :: rest)

/-- Digit-accumulation loop for `natDigits` (fuel-structural; the entry
point supplies fuel that always suffices). -/
def natDigitsAux : Nat → Nat → Str → Str
  | _, 0, acc => acc
  | n, fuel + 1, acc =>
      if n < 10 then Char.ofNat (n + 48) :: acc
      else natDigitsAux (n / 10) fuel (Char.ofNat (n % 10 + 48) :: acc)

/-- Decimal digits of a natural number, most significant first
(mirrors `std::to_string` on a non-negative value). -/
def natDigits (n : Nat) : Str := natDigitsAux n (n + 1) []

/-- `std::to_string` on an `int`. -/
def intToStr (i : Int) : Str :=
  if i < 0 then '-' :: natDigits i.natAbs else natDigits i.natAbs

/-! ## The float radius, as an exact decimal

`DecF` represents `±mant / 10 ^ exp`.  `normDecF` keeps the fraction in
lowest decimal terms (no trailing zero in the fractional digits), which is
exactly the information `FormatRadius` prints, so two float literals that
denote the same value share one representation. -/

structure DecF where
  neg : Bool
  mant : Nat
  exp : Nat
deriving Repr, DecidableEq

/-- Strip factors of ten while a fractional digit remains. -/
def stripTens : Nat → Nat → Nat × Nat
  | m, 0 => (m, 0)
  | m, e + 1 =>
      if m % 10 = 0 then stripTens (m / 10) e else (m, e + 1)

/-- Normalize: value `0` keeps its sign bit (IEEE `-0.0` prints `"-0"`),
trailing zero fraction digits are dropped. -/
def normDecF (d : DecF) : DecF :=
  if d.mant = 0 then ⟨d.neg, 0, 0⟩
  else
    let (m, e) := stripTens d.mant d.exp
    ⟨d.neg, m, e⟩

/-- The rational value of a decimal (used only by the spatial queries). -/
def decValue (d : DecF) : Rat :=
  (if d.neg then -1 else 1) * (d.mant : Rat) / ((10 : Rat) ^ d.exp)

/-- `FormatRadius` (Predicate.cpp): stream with `setprecision(6)` /
`noshowpoint`, then strip trailing fractional zeros.  On a normalized
decimal of at most six significant digits this is the sign, the integer
part, and the (already-stripped) fraction digits. -/
def formatDec (d : DecF) : Str :=
  let sign : Str := if d.neg then ['-'] else []
  if d.exp = 0 then sign ++ natDigits d.mant
  else
    let ip := d.mant / 10 ^ d.exp
    let fp := d.mant % 10 ^ d.exp
    let fdigits := natDigits fp
    let pad := List.replicate (d.exp - fdigits.length) '0'
    sign ++ natDigits ip ++ ['.'] ++ pad ++ fdigits

/-! ## Glob matching

`NamePredicate`/`ResnPredicate` call `fnmatch(pattern, name, 0)` when the
pattern contains `*` or `?`.  We model the `*`/`?` wildcard semantics of
`fnmatch(3)`; bracket classes and backslash escapes cannot be produced by
the grammar's `glob_char` alphabet and are not modelled. -/

def globMatch : Str → Str → Bool
  | [], s => s.isEmpty
  | '*' :: ps, s => (s.tails.map (globMatch ps)).any id
  | '?' :: ps, s =>
      match s with
      | [] => false
      | _ :: cs => globMatch ps cs
  | p :: ps, s =>
      match s with
      | [] => false
      | c :: cs => p == c && globMatch ps cs

/-- `NamePredicate` precomputes `has_wildcard_` in its constructor. -/
def hasWildcard (p : Str) : Bool := p.contains '*' || p.contains '?'

/-- `fnmatch` when a wildcard is present, exact equality otherwise
(shared by `NamePredicate::Evaluate` and `ResnPredicate::Evaluate`). -/
def patternMatch (pat : Str) (s : Str) : Bool :=
  if hasWildcard pat then globMatch pat s else pat == s

/-! ## Host (OEChem) interface model

An atom carries exactly the read-only fields the library consumes
(`§6` of the specification): name, stable 0-based index, atomic number,
coordinates, bonded-neighbor atomic numbers, and residue metadata. -/

structure Atom where
  idx : Nat
  name : Str
  atomicNum : Nat
  resName : Str
  resNum : Int
  chainId : Char
  insertCode : Char
  secondaryStructure : Nat
  x : Rat
  y : Rat
  z : Rat
  bondedAtomicNums : List Nat
deriving Repr, DecidableEq

/-- A molecule: its atoms in `GetAtoms` iteration order. -/
abbrev Molecule := List Atom

/-- `OEBio::OESecondaryStructure::Helix` (host constant; the exact numeric
values are opaque to the library, only distinctness is used). -/
def ssHelix : Nat := 1

/-- `OEBio::OESecondaryStructure::Sheet` (host constant). -/
def ssSheet : Nat := 2

/-- `OEBio::OESecondaryStructure::Turn` (host constant). -/
def ssTurn : Nat := 3

/-- ASCII lower-casing of a modelled string. -/
def lowerStr (s : Str) : Str := s.map Char.toLower

/-- `OEChem::OEGetAtomicNum`: case-insensitive element-symbol lookup,
`0` for unknown symbols.  Modelled from the spec: the host resolves a
1–2 letter symbol to an atomic number; a representative table of the
periodic-table symbols exercised by biomolecular selections. -/
def OEGetAtomicNum (s : Str) : Nat :=
  let t : List (String × Nat) :=
    [("h", 1), ("he", 2), ("li", 3), ("b", 5), ("c", 6), ("n", 7),
     ("o", 8), ("f", 9), ("na", 11), ("mg", 12), ("al", 13), ("si", 14),
     ("p", 15), ("s", 16), ("cl", 17), ("k", 19), ("ca", 20), ("mn", 25),
     ("fe", 26), ("cu", 29), ("zn", 30), ("br", 35), ("i", 53)]
  match t.find? (fun e => lowerStr s = str e.1) with
  | some e => e.2
  | none => 0

/-- `NormalizeElement` (Predicate.cpp): first character upper-cased, the
rest lower-cased. -/
def normalizeElement (e : Str) : Str :=
  match e with
  | [] => []
  | c :: cs => c.toUpper :: cs.map Char.toLower

/-! ## The predicate tree

One constructor per implemented predicate class (Predicate.cpp,
Parser.cpp's `TruePredicateImpl`/`FalsePredicateImpl`).  The enum values
`Box`, `XBox`, `Id`, `Alt`, `BFactor` and `Fragment` of `PredicateType`
have no implemented class and no grammar production, so they have no
constructor here. -/

/-- `ResiPredicate::Op` / `IndexPredicate::Op`. -/
inductive CmpOp where
  | eq | lt | le | gt | ge | range
deriving Repr, DecidableEq

inductive Pred where
  /-- `NamePredicate` -/
  | name (pattern : Str)
  /-- `ResnPredicate` -/
  | resn (pattern : Str)
  /-- `ResiPredicate` (fields `value_`, `end_value_`, `op_`) -/
  | resi (value : Int) (endValue : Int) (op : CmpOp)
  /-- `ChainPredicate` -/
  | chain (chainId : Str)
  /-- `ElemPredicate` (fields `atomic_num_`, `element_`) -/
  | elem (atomicNum : Nat) (element : Str)
  /-- `IndexPredicate` -/
  | index (value : Nat) (endValue : Nat) (op : CmpOp)
  /-- `AndPredicate` -/
  | and (children : List Pred)
  /-- `OrPredicate` -/
  | or (children : List Pred)
  /-- `NotPredicate` -/
  | not (child : Pred)
  /-- `XOrPredicate` -/
  | xor (children : List Pred)
  | protein
  | ligand
  | water
  | solvent
  | organic
  | backbone
  | sidechain
  | metal
  | heavy
  | hydrogen
  | polarHydrogen
  | nonpolarHydrogen
  | helix
  | sheet
  | turn
  | loop
  /-- `AroundPredicate` (fields `radius_`, `reference_`) -/
  | around (radius : DecF) (reference : Pred)
  /-- `XAroundPredicate` -/
  | xaround (radius : DecF) (reference : Pred)
  /-- `BeyondPredicate` -/
  | beyond (radius : DecF) (reference : Pred)
  /-- `ByResPredicate` -/
  | byres (child : Pred)
  /-- `ByChainPredicate` -/
  | bychain (child : Pred)
  /-- `TruePredicateImpl` / `TruePredicate` (empty selection, `all`) -/
  | tru
  /-- `FalsePredicateImpl` (`none`) -/
  | fls

/-! ## Canonical rendering (`ToCanonical`) -/

/-- Render the sorted, parenthesized join of an n-ary logical node
(`AndPredicate::ToCanonical` and friends). -/
def canonNary (kw : Str) (parts : List Str) : Str :=
  '(' :: joinSep kw (sortStrs parts) ++ [')']

mutual

/-- `Predicate::ToCanonical`, case by case from Predicate.cpp. -/
def toCanonical : Pred → Str
  | .name p => str "name " ++ p
  | .resn p => str "resn " ++ p
  | .resi v e op =>
      match op with
      | .eq => str "resi " ++ intToStr v
      | .lt => str "resi < " ++ intToStr v
      | .le => str "resi <= " ++ intToStr v
      | .gt => str "resi > " ++ intToStr v
      | .ge => str "resi >= " ++ intToStr v
      | .range => str "resi " ++ intToStr v ++ ['-'] ++ intToStr e
  | .chain c => str "chain " ++ c
  | .elem _ e => str "elem " ++ e
  | .index v e op =>
      match op with
      | .eq => str "index " ++ natDigits v
      | .lt => str "index < " ++ natDigits v
      | .le => str "index <= " ++ natDigits v
      | .gt => str "index > " ++ natDigits v
      | .ge => str "index >= " ++ natDigits v
      | .range => str "index " ++ natDigits v ++ ['-'] ++ natDigits e
  | .and [] => str "all"
  | .and [c] => toCanonical c
  | .and (c1 :: c2 :: cs) => canonNary (str " and ") (canonList (c1 :: c2 :: cs))
  | .or [] => str "none"
  | .or [c] => toCanonical c
  | .or (c1 :: c2 :: cs) => canonNary (str " or ") (canonList (c1 :: c2 :: cs))
  | .not c => str "not " ++ toCanonical c
  | .xor [] => str "none"
  | .xor [c] => toCanonical c
  | .xor (c1 :: c2 :: cs) => canonNary (str " xor ") (canonList (c1 :: c2 :: cs))
  | .protein => str "protein"
  | .ligand => str "ligand"
  | .water => str "water"
  | .solvent => str "solvent"
  | .organic => str "organic"
  | .backbone => str "backbone"
  | .sidechain => str "sidechain"
  | .metal => str "metal"
  | .heavy => str "heavy"
  | .hydrogen => str "hydrogen"
  | .polarHydrogen => str "polar_hydrogen"
  | .nonpolarHydrogen => str "nonpolar_hydrogen"
  | .helix => str "helix"
  | .sheet => str "sheet"
  | .turn => str "turn"
  | .loop => str "loop"
  | .around r ref => str "around " ++ formatDec r ++ [' '] ++ toCanonical ref
  | .xaround r ref => str "xaround " ++ formatDec r ++ [' '] ++ toCanonical ref
  | .beyond r ref => str "beyond " ++ formatDec r ++ [' '] ++ toCanonical ref
  | .byres c => str "byres " ++ toCanonical c
  | .bychain c => str "bychain " ++ toCanonical c
  | .tru => str "all"
  | .fls => str "none"

/-- Canonical strings of a child list (the per-child loop of the n-ary
`ToCanonical` implementations). -/
def canonList : List Pred → List Str
  | [] => []
  | p :: ps => toCanonical p :: canonList ps

end

/-! ## Component classification (Tagger.cpp) -/

/-- `ComponentFlag` (Tagger.h): distinct single-bit values. -/
inductive ComponentFlag where
  | none | protein | ligand | solvent | cofactor | nucleic | water
deriving Repr, DecidableEq

/-- The `uint32_t` value of a component flag (Tagger.h). -/
def ComponentFlag.toNat : ComponentFlag → Nat
  | .none => 0
  | .protein => 1
  | .ligand => 2
  | .solvent => 4
  | .cofactor => 8
  | .nucleic => 16
  | .water => 32

/-- `std::isspace` in the default locale. -/
def isSpaceChar (c : Char) : Bool :=
  c = ' ' || c = '\t' || c = '\n' || (c.val = 11) || (c.val = 12) || c = '\r'

/-- `TrimWhitespace` (Tagger.cpp): strip trailing then leading blanks. -/
def trimWhitespace (s : Str) : Str :=
  ((s.reverse.dropWhile isSpaceChar).reverse).dropWhile isSpaceChar

def WATER_RESNAMES : List Str :=
  [str "HOH", str "WAT", str "H2O", str "DOD", str "TIP", str "TIP3",
   str "SPC"]

def AMINO_ACIDS : List Str :=
  [str "ALA", str "ARG", str "ASN", str "ASP", str "CYS", str "GLN",
   str "GLU", str "GLY", str "HIS", str "ILE", str "LEU", str "LYS",
   str "MET", str "PHE", str "PRO", str "SER", str "THR", str "TRP",
   str "TYR", str "VAL", str "HID", str "HIE", str "HIP", str "CYX",
   str "ASH", str "GLH", str "ACE", str "NME"]

def NUCLEOTIDES : List Str :=
  [str "A", str "G", str "C", str "U", str "T", str "DA", str "DG",
   str "DC", str "DT", str "DU", str "ADE", str "GUA", str "CYT",
   str "URA", str "THY", str "RA", str "RG", str "RC", str "RU"]

def COFACTORS : List Str :=
  [str "NAD", str "NAP", str "NAI", str "NDP", str "FAD", str "FMN",
   str "FNR", str "HEM", str "HEC", str "HEA", str "ATP", str "ADP",
   str "AMP", str "GTP", str "GDP", str "GMP", str "COA", str "ACO",
   str "PLP", str "BTN", str "B12", str "CBY", str "SF4", str "FES",
   str "F3S", str "MG", str "CA", str "ZN", str "FE", str "MN", str "CU"]

def SOLVENTS : List Str :=
  [str "DMS", str "DMF", str "ACN", str "MET", str "EOH", str "IPA",
   str "GOL", str "PEG", str "EDO"]

/-- `ClassifyResidue` (Tagger.cpp): trim, check each name set in order,
default to `Ligand` for unknown residues. -/
def classifyResidue (resname : Str) : ComponentFlag :=
  let name := trimWhitespace resname
  if WATER_RESNAMES.contains name then .water
  else if AMINO_ACIDS.contains name then .protein
  else if NUCLEOTIDES.contains name then .nucleic
  else if COFACTORS.contains name then .cofactor
  else if SOLVENTS.contains name then .solvent
  else .ligand

/-- A molecule together with the generic-data tags `Tagger` writes:
per-atom component flags (parallel to the atom list) and the
molecule-level `OESel_Tagged` marker. -/
structure TaggedMol where
  atoms : Molecule
  compFlags : List Nat
  tagged : Bool
deriving Repr, DecidableEq

/-- `Tagger::TagMolecule`: idempotent classification pass that stores
`ClassifyResidue(residue name)` on each atom and marks the molecule. -/
def tagMolecule (m : TaggedMol) : TaggedMol :=
  if m.tagged then m
  else
    { atoms := m.atoms
      compFlags := m.atoms.map (fun a => (classifyResidue a.resName).toNat)
      tagged := true }

/-- `Tagger::GetFlags`: the stored bitfield, `0` if the atom is untagged. -/
def taggerGetFlags (m : TaggedMol) (i : Nat) : Nat := m.compFlags.getD i 0

/-- `Tagger::HasComponent`: bitwise test of one flag. -/
def hasComponentIn (m : TaggedMol) (i : Nat) (f : ComponentFlag) : Bool :=
  taggerGetFlags m i &&& f.toNat != 0

/-- The `TagMolecule`-then-`HasComponent` composition used by every
component predicate during evaluation: after the (idempotent,
deterministic) tagging pass, an atom's flag word is
`ClassifyResidue(residue name)`. -/
def hasComponent (a : Atom) (f : ComponentFlag) : Bool :=
  (classifyResidue a.resName).toNat &&& f.toNat != 0

/-! ## Spatial index (SpatialIndex.cpp) -/

/-- Squared Euclidean distance between an atom's snapshot coordinates and
a query point (nanoflann `L2_Simple_Adaptor`). -/
def distSq (a : Atom) (qx qy qz : Rat) : Rat :=
  (a.x - qx) * (a.x - qx) + (a.y - qy) * (a.y - qy) + (a.z - qz) * (a.z - qz)

/-- `SpatialIndex::FindWithinRadius(x, y, z, radius)`: the k-d tree
compares squared distances against `radius * radius`
(nanoflann's radius search uses a strict `<` comparison — the
boundary-exclusive sharp edge noted in the specification).  The returned
indices are the `atom_indices` of the matching cloud points; nanoflann
reports them sorted by distance, and every caller consumes the result as
a set, so the model lists them in cloud (molecule) order. -/
def findWithinRadius (mol : Molecule) (qx qy qz : Rat) (radius : Rat) :
    List Nat :=
  ((mol.filter (fun a => distSq a qx qy qz < radius * radius)).map
    (fun a => a.idx))

/-- The atom-based overload: reads the atom's own coordinates. -/
def findWithinRadiusAtom (mol : Molecule) (a : Atom) (radius : Rat) :
    List Nat :=
  findWithinRadius mol a.x a.y a.z radius

/-! ## Evaluation context (Context.cpp) -/

/-- Association-list lookup (`std::unordered_map::find`). -/
def assocFind {α : Type} : List (Str × α) → Str → Option α
  | [], _ => Option.none
  | (k, v) :: rest, key => if k = key then some v else assocFind rest key

/-- Association-list write (`operator[]` assignment: replace or insert). -/
def assocSet {α : Type} : List (Str × α) → Str → α → List (Str × α)
  | [], key, v => [(key, v)]
  | (k, w) :: rest, key, v =>
      if k = key then (key, v) :: rest else (k, w) :: assocSet rest key v

/-- `Context::Impl`: the three memoization tables.  (The lazily-built
spatial index is a pure function of the borrowed molecule and is modelled
by calling `findWithinRadius` directly.) -/
structure Ctx where
  residueCache : List (Str × List Nat)
  chainCache : List (Str × List Nat)
  aroundCache : List (Str × List Bool)
deriving Repr, DecidableEq

/-- A newly constructed context: all caches empty. -/
def freshCtx : Ctx := ⟨[], [], []⟩

def Ctx.hasAroundCache (c : Ctx) (k : Str) : Bool :=
  (assocFind c.aroundCache k).isSome

def Ctx.getAroundCache (c : Ctx) (k : Str) : List Bool :=
  (assocFind c.aroundCache k).getD []

def Ctx.setAroundCache (c : Ctx) (k : Str) (v : List Bool) : Ctx :=
  { c with aroundCache := assocSet c.aroundCache k v }

def Ctx.hasResidueCache (c : Ctx) (k : Str) : Bool :=
  (assocFind c.residueCache k).isSome

def Ctx.getResidueAtoms (c : Ctx) (k : Str) : List Nat :=
  (assocFind c.residueCache k).getD []

def Ctx.setResidueAtoms (c : Ctx) (k : Str) (v : List Nat) : Ctx :=
  { c with residueCache := assocSet c.residueCache k v }

def Ctx.hasChainCache (c : Ctx) (k : Str) : Bool :=
  (assocFind c.chainCache k).isSome

def Ctx.getChainAtoms (c : Ctx) (k : Str) : List Nat :=
  (assocFind c.chainCache k).getD []

def Ctx.setChainAtoms (c : Ctx) (k : Str) (v : List Nat) : Ctx :=
  { c with chainCache := assocSet c.chainCache k v }

/-! ## Cache keys -/

/-- The key built by `AroundPredicate::GetAroundMask`:
`"around_" + FormatRadius(radius_) + "_" + reference_->ToCanonical()`. -/
def aroundKeyOfAround (r : DecF) (ref : Pred) : Str :=
  str "around_" ++ formatDec r ++ ['_'] ++ toCanonical ref

/-- The key built by `XAroundPredicate::GetAroundMask` (the source
deliberately reuses the `around_` prefix: same computation, same key). -/
def aroundKeyOfXAround (r : DecF) (ref : Pred) : Str :=
  str "around_" ++ formatDec r ++ ['_'] ++ toCanonical ref

/-- The key built by `BeyondPredicate::GetAroundMask` (same shared key;
only the interpretation of the mask differs). -/
def aroundKeyOfBeyond (r : DecF) (ref : Pred) : Str :=
  str "around_" ++ formatDec r ++ ['_'] ++ toCanonical ref

/-- The key built by `ByResPredicate::GetMatchingResidues`. -/
def byresKey (child : Pred) : Str := str "byres_" ++ toCanonical child

/-- The key built by `ByChainPredicate::GetMatchingChainAtoms`. -/
def bychainKey (child : Pred) : Str := str "bychain_" ++ toCanonical child

/-- A residue's identity: (chain id, residue number, insertion code)
(the `ResidueKey` helper struct of Predicate.cpp). -/
structure ResidueKey where
  chainId : Char
  residueNumber : Int
  insertionCode : Char
deriving Repr, DecidableEq

/-- `GetResidueKey` (Predicate.cpp). -/
def getResidueKey (a : Atom) : ResidueKey :=
  ⟨a.chainId, a.resNum, a.insertCode⟩

/-! ## Leaf evaluation (Predicate.cpp, context-independent clauses) -/

/-- `NamePredicate::Evaluate`. -/
def nameEval (pat : Str) (a : Atom) : Bool := patternMatch pat a.name

/-- `ResnPredicate::Evaluate`. -/
def resnEval (pat : Str) (a : Atom) : Bool := patternMatch pat a.resName

/-- `ResiPredicate::Evaluate`. -/
def resiEval (v e : Int) (op : CmpOp) (a : Atom) : Bool :=
  match op with
  | .eq => a.resNum == v
  | .lt => a.resNum < v
  | .le => a.resNum ≤ v
  | .gt => a.resNum > v
  | .ge => a.resNum ≥ v
  | .range => a.resNum ≥ v && a.resNum ≤ e

/-- `ChainPredicate::Evaluate`: matches only when the stored id is a
single character equal to the atom's chain id. -/
def chainEval (cid : Str) (a : Atom) : Bool :=
  match cid with
  | [ch] => a.chainId == ch
  | _ => false

/-- `ElemPredicate::Evaluate`: compares precomputed atomic numbers. -/
def elemEval (z : Nat) (a : Atom) : Bool := a.atomicNum == z

/-- `IndexPredicate::Evaluate` (`GetIdx` is unsigned). -/
def indexEval (v e : Nat) (op : CmpOp) (a : Atom) : Bool :=
  match op with
  | .eq => a.idx == v
  | .lt => a.idx < v
  | .le => a.idx ≤ v
  | .gt => a.idx > v
  | .ge => a.idx ≥ v
  | .range => a.idx ≥ v && a.idx ≤ e

/-- `OrganicPredicate::Evaluate`: carbon or bonded to carbon, and neither
protein nor nucleic. -/
def organicEval (a : Atom) : Bool :=
  (if a.atomicNum != 6 then a.bondedAtomicNums.contains 6 else true) &&
    !hasComponent a .protein && !hasComponent a .nucleic

/-- `BackbonePredicate::Evaluate`. -/
def backboneEval (a : Atom) : Bool :=
  hasComponent a .protein &&
    (a.name == str "N" || a.name == str "CA" || a.name == str "C" ||
      a.name == str "O")

/-- `SidechainPredicate::Evaluate`. -/
def sidechainEval (a : Atom) : Bool :=
  hasComponent a .protein &&
    !(a.name == str "N" || a.name == str "CA" || a.name == str "C" ||
      a.name == str "O") &&
    !(a.name == str "OXT")

/-- `MetalPredicate::Evaluate`: the listed atomic-number ranges. -/
def metalEval (a : Atom) : Bool :=
  let z := a.atomicNum
  z == 3 || (z ≥ 11 && z ≤ 13) || (z ≥ 19 && z ≤ 30) ||
    (z ≥ 37 && z ≤ 48) || (z ≥ 55 && z ≤ 80)

/-- `PolarHydrogenPredicate::Evaluate`: hydrogen bonded to N, O or S. -/
def polarHydrogenEval (a : Atom) : Bool :=
  a.atomicNum == 1 &&
    a.bondedAtomicNums.any (fun z => z == 7 || z == 8 || z == 16)

/-- `NonpolarHydrogenPredicate::Evaluate`: hydrogen not bonded to N/O/S. -/
def nonpolarHydrogenEval (a : Atom) : Bool :=
  a.atomicNum == 1 &&
    !(a.bondedAtomicNums.any (fun z => z == 7 || z == 8 || z == 16))

/-- Mark the `around` mask at every returned index that is in range
(the `for (unsigned int idx : nearby)` loop of `GetAroundMask`). -/
def markIndices (mask : List Bool) : List Nat → List Bool
  | [] => mask
  | i :: is =>
      markIndices (if i < mask.length then mask.set i true else mask) is

/-- `std::unordered_set::insert` modelled on a list: membership-preserving
insert without duplicates. -/
def insertNew {α : Type} [DecidableEq α] (s : List α) (x : α) : List α :=
  if s.contains x then s else s ++ [x]

/-! ## The evaluator (`Predicate::Evaluate`, Predicate.cpp)

Mutually recursive over an explicit fuel so that every definition is
structural (kernel-computable).  Every clause passes `fuel` to each
nested call; the entry point `evalP` supplies `predFuel`, which provably
suffices.  The `getAroundMask` helper is the (verbatim-identical) shared
body of `AroundPredicate::GetAroundMask`, `XAroundPredicate::GetAroundMask`
and `BeyondPredicate::GetAroundMask`; each caller passes the key its own
method builds. -/

mutual

def evalPred : Nat → Pred → Molecule → Ctx → Atom → Bool × Ctx
  | 0, _, _, c, _ => (false, c)
  | fuel + 1, p, mol, c, a =>
      match p with
      | .name pat => (nameEval pat a, c)
      | .resn pat => (resnEval pat a, c)
      | .resi v e op => (resiEval v e op a, c)
      | .chain cid => (chainEval cid a, c)
      | .elem z _ => (elemEval z a, c)
      | .index v e op => (indexEval v e op a, c)
      | .and cs => andLoop fuel cs mol c a
      | .or cs => orLoop fuel cs mol c a
      | .not q =>
          let (b, c') := evalPred fuel q mol c a
          (!b, c')
      | .xor cs => xorLoop fuel cs mol c a 0
      | .protein => (hasComponent a .protein, c)
      | .ligand => (hasComponent a .ligand, c)
      | .water => (hasComponent a .water, c)
      | .solvent =>
          (hasComponent a .water || hasComponent a .solvent, c)
      | .organic => (organicEval a, c)
      | .backbone => (backboneEval a, c)
      | .sidechain => (sidechainEval a, c)
      | .metal => (metalEval a, c)
      | .heavy => (a.atomicNum > 1, c)
      | .hydrogen => (a.atomicNum == 1, c)
      | .polarHydrogen => (polarHydrogenEval a, c)
      | .nonpolarHydrogen => (nonpolarHydrogenEval a, c)
      | .helix => (a.secondaryStructure == ssHelix, c)
      | .sheet => (a.secondaryStructure == ssSheet, c)
      | .turn => (a.secondaryStructure == ssTurn, c)
      | .loop =>
          (a.secondaryStructure != ssHelix &&
            a.secondaryStructure != ssSheet &&
            a.secondaryStructure != ssTurn, c)
      | .around r ref =>
          let (mask, c') :=
            getAroundMask fuel (aroundKeyOfAround r ref) r ref mol c
          (decide (a.idx < mask.length) && mask.getD a.idx false, c')
      | .xaround r ref =>
          let (rm, c1) := evalPred fuel ref mol c a
          if rm then (false, c1)
          else
            let (mask, c2) :=
              getAroundMask fuel (aroundKeyOfXAround r ref) r ref mol c1
            (decide (a.idx < mask.length) && mask.getD a.idx false, c2)
      | .beyond r ref =>
          let (mask, c') :=
            getAroundMask fuel (aroundKeyOfBeyond r ref) r ref mol c
          (if mask.length ≤ a.idx then true else !(mask.getD a.idx false),
            c')
      | .byres q =>
          let (s, c') := getMatchingResidues fuel q mol c
          (s.contains a.idx, c')
      | .bychain q =>
          let (s, c') := getMatchingChainAtoms fuel q mol c
          (s.contains a.idx, c')
      | .tru => (true, c)
      | .fls => (false, c)

/-- `AndPredicate::Evaluate`: short-circuit on the first false child. -/
def andLoop : Nat → List Pred → Molecule → Ctx → Atom → Bool × Ctx
  | 0, _, _, c, _ => (false, c)
  | _ + 1, [], _, c, _ => (true, c)
  | fuel + 1, p :: ps, mol, c, a =>
      let (b, c') := evalPred fuel p mol c a
      if b then andLoop fuel ps mol c' a else (false, c')

/-- `OrPredicate::Evaluate`: short-circuit on the first true child. -/
def orLoop : Nat → List Pred → Molecule → Ctx → Atom → Bool × Ctx
  | 0, _, _, c, _ => (false, c)
  | _ + 1, [], _, c, _ => (false, c)
  | fuel + 1, p :: ps, mol, c, a =>
      let (b, c') := evalPred fuel p mol c a
      if b then (true, c') else orLoop fuel ps mol c' a

/-- `XOrPredicate::Evaluate`: count matches, returning false as soon as a
second match is seen (the `if (match_count > 1) return false` early
exit), and true at the end iff exactly one child matched. -/
def xorLoop : Nat → List Pred → Molecule → Ctx → Atom → Nat → Bool × Ctx
  | 0, _, _, c, _, _ => (false, c)
  | _ + 1, [], _, c, _, count => (count == 1, c)
  | fuel + 1, p :: ps, mol, c, a, count =>
      let (b, c') := evalPred fuel p mol c a
      if b then
        if count + 1 > 1 then (false, c')
        else xorLoop fuel ps mol c' a (count + 1)
      else xorLoop fuel ps mol c' a count

/-- Instrumented twin of `xorLoop` that also reports how many child
`Evaluate` calls were made (for stating the no-short-circuit property). -/
def xorLoopCount :
    Nat → List Pred → Molecule → Ctx → Atom → Nat → Bool × Ctx × Nat
  | 0, _, _, c, _, _ => (false, c, 0)
  | _ + 1, [], _, c, _, count => (count == 1, c, 0)
  | fuel + 1, p :: ps, mol, c, a, count =>
      let (b, c') := evalPred fuel p mol c a
      if b then
        if count + 1 > 1 then (false, c', 1)
        else
          let (res, c'', n) := xorLoopCount fuel ps mol c' a (count + 1)
          (res, c'', n + 1)
      else
        let (res, c'', n) := xorLoopCount fuel ps mol c' a count
        (res, c'', n + 1)

/-- The specification's Xor semantics: evaluate every child (no early
exit) and count the matches. -/
def xorFull : Nat → List Pred → Molecule → Ctx → Atom → Nat × Ctx
  | 0, _, _, c, _ => (0, c)
  | _ + 1, [], _, c, _ => (0, c)
  | fuel + 1, p :: ps, mol, c, a =>
      let (b, c') := evalPred fuel p mol c a
      let (n, c'') := xorFull fuel ps mol c' a
      ((if b then 1 else 0) + n, c'')

/-- The shared `GetAroundMask` body: consult the cache under `key`; on a
miss, build a boolean mask sized to the molecule by marking, for every
atom matching the reference, all atoms within the radius; store it and
return the stored mask. -/
def getAroundMask :
    Nat → Str → DecF → Pred → Molecule → Ctx → List Bool × Ctx
  | 0, _, _, _, _, c => ([], c)
  | fuel + 1, key, r, ref, mol, c =>
      if c.hasAroundCache key then (c.getAroundCache key, c)
      else
        let (mask, c') :=
          maskMarkLoop fuel ref (decValue r) mol mol c
            (List.replicate mol.length false)
        let c'' := c'.setAroundCache key mask
        (c''.getAroundCache key, c'')

/-- The reference-atom scan of `GetAroundMask`: for every atom matching
the reference predicate, mark all atoms within the radius. -/
def maskMarkLoop :
    Nat → Pred → Rat → List Atom → Molecule → Ctx → List Bool →
      List Bool × Ctx
  | 0, _, _, _, _, c, mask => (mask, c)
  | _ + 1, _, _, [], _, c, mask => (mask, c)
  | fuel + 1, ref, rv, a :: rest, mol, c, mask =>
      let (hit, c') := evalPred fuel ref mol c a
      if hit then
        maskMarkLoop fuel ref rv rest mol c'
          (markIndices mask (findWithinRadiusAtom mol a rv))
      else maskMarkLoop fuel ref rv rest mol c' mask

/-- `ByResPredicate::GetMatchingResidues`: two-pass residue expansion,
cached under `byres_<canonical child>`. -/
def getMatchingResidues : Nat → Pred → Molecule → Ctx → List Nat × Ctx
  | 0, _, _, c => ([], c)
  | fuel + 1, child, mol, c =>
      let key := byresKey child
      if c.hasResidueCache key then (c.getResidueAtoms key, c)
      else
        let (keys, c') := resFirstPass fuel child mol mol c []
        let result :=
          (mol.filter (fun b => keys.contains (getResidueKey b))).map
            (fun b => b.idx)
        let c'' := c'.setResidueAtoms key result
        (c''.getResidueAtoms key, c'')

/-- First pass of `GetMatchingResidues`: collect the residue keys of the
atoms matching the child predicate. -/
def resFirstPass :
    Nat → Pred → List Atom → Molecule → Ctx → List ResidueKey →
      List ResidueKey × Ctx
  | 0, _, _, _, c, acc => (acc, c)
  | _ + 1, _, [], _, c, acc => (acc, c)
  | fuel + 1, child, a :: rest, mol, c, acc =>
      let (hit, c') := evalPred fuel child mol c a
      resFirstPass fuel child rest mol c'
        (if hit then insertNew acc (getResidueKey a) else acc)

/-- `ByChainPredicate::GetMatchingChainAtoms`: two-pass chain expansion,
cached under `bychain_<canonical child>`. -/
def getMatchingChainAtoms : Nat → Pred → Molecule → Ctx → List Nat × Ctx
  | 0, _, _, c => ([], c)
  | fuel + 1, child, mol, c =>
      let key := bychainKey child
      if c.hasChainCache key then (c.getChainAtoms key, c)
      else
        let (chains, c') := chainFirstPass fuel child mol mol c []
        let result :=
          (mol.filter (fun b => chains.contains b.chainId)).map
            (fun b => b.idx)
        let c'' := c'.setChainAtoms key result
        (c''.getChainAtoms key, c'')

/-- First pass of `GetMatchingChainAtoms`: collect the chain ids of the
atoms matching the child predicate. -/
def chainFirstPass :
    Nat → Pred → List Atom → Molecule → Ctx → List Char →
      List Char × Ctx
  | 0, _, _, _, c, acc => (acc, c)
  | _ + 1, _, [], _, c, acc => (acc, c)
  | fuel + 1, child, a :: rest, mol, c, acc =>
      let (hit, c') := evalPred fuel child mol c a
      chainFirstPass fuel child rest mol c'
        (if hit then insertNew acc a.chainId else acc)

end

/-! ## Fuel budget and entry point -/

mutual

/-- Fuel that provably suffices to evaluate a predicate against a
molecule of `n` atoms (a termination artifact; see the module header).
The formula is identical for the three distance kinds, so `around`,
`xaround` and `beyond` on the same reference receive identical fuel. -/
def predFuel : Pred → Nat → Nat
  | .and cs, n => predFuelList cs n + 1
  | .or cs, n => predFuelList cs n + 1
  | .xor cs, n => predFuelList cs n + 1
  | .not c, n => predFuel c n + 2
  | .around _ ref, n => (n + 2) * (predFuel ref n + 2) + 3
  | .xaround _ ref, n => (n + 2) * (predFuel ref n + 2) + 3
  | .beyond _ ref, n => (n + 2) * (predFuel ref n + 2) + 3
  | .byres c, n => (n + 2) * (predFuel c n + 2) + 3
  | .bychain c, n => (n + 2) * (predFuel c n + 2) + 3
  | _, _ => 1

def predFuelList : List Pred → Nat → Nat
  | [], _ => 1
  | c :: cs, n => predFuel c n + predFuelList cs n + 1

end

/-- `Predicate::Evaluate` as called by the library: one predicate, one
molecule-scoped context, one atom. -/
def evalP (p : Pred) (mol : Molecule) (c : Ctx) (a : Atom) : Bool × Ctx :=
  evalPred (predFuel p mol.length) p mol c a

/-! ## C2: `beyond` is the pointwise negation of `around` -/

/-- At any shared fuel, a `beyond` evaluation is the negation of the
`around` evaluation on the same context (they perform the same
`GetAroundMask` call under the same key). -/
theorem beyond_negates_around_fuel (f : Nat) (r : DecF) (ref : Pred)
    (mol : Molecule) (c : Ctx) (a : Atom) :
    evalPred (f + 1) (.beyond r ref) mol c a
      = (!(evalPred (f + 1) (.around r ref) mol c a).1,
         (evalPred (f + 1) (.around r ref) mol c a).2) := by
  simp only [evalPred]
  rw [show aroundKeyOfBeyond r ref = aroundKeyOfAround r ref from rfl]
  rcases getAroundMask f (aroundKeyOfAround r ref) r ref mol c with ⟨mask, c2⟩
  simp only
  by_cases h : a.idx < mask.length
  · simp [h, Nat.not_le.mpr h]
  · simp [h, Nat.le_of_not_lt h]

/-- C2: for every radius, reference predicate, molecule, context and
atom, evaluating `beyond(R, Ref)` returns the logical negation of
evaluating `around(R, Ref)` in the same evaluation context; in
particular, when the context holds a cached mask narrower than the
atom's index (a cache built against a different-sized molecule), the
`around` evaluation resolves to `false` and the `beyond` evaluation to
`true`. -/
theorem C2_beyond_is_not_around (r : DecF) (ref : Pred) (mol : Molecule)
    (c : Ctx) (a : Atom) :
    ((evalP (.beyond r ref) mol c a).1
        = !(evalP (.around r ref) mol c a).1) ∧
    (c.hasAroundCache (aroundKeyOfAround r ref) = true →
      (c.getAroundCache (aroundKeyOfAround r ref)).length ≤ a.idx →
      (evalP (.around r ref) mol c a).1 = false ∧
        (evalP (.beyond r ref) mol c a).1 = true) := by
  have h := beyond_negates_around_fuel
    ((mol.length + 2) * (predFuel ref mol.length + 2) + 2) r ref mol c a
  constructor
  · show (evalPred ((mol.length + 2) * (predFuel ref mol.length + 2) + 2 + 1)
        (.beyond r ref) mol c a).1 = _
    rw [h]
    rfl
  · intro hcache hlen
    have haround : (evalP (.around r ref) mol c a).1 = false := by
      show (evalPred ((mol.length + 2) * (predFuel ref mol.length + 2) + 2 + 1)
          (.around r ref) mol c a).1 = false
      simp only [evalPred]
      rw [show (mol.length + 2) * (predFuel ref mol.length + 2) + 2
            = (mol.length + 2) * (predFuel ref mol.length + 2) + 1 + 1 from rfl]
      simp only [getAroundMask, hcache]
      simp [Nat.not_lt.mpr hlen]
    refine ⟨haround, ?_⟩
    show (evalPred ((mol.length + 2) * (predFuel ref mol.length + 2) + 2 + 1)
        (.beyond r ref) mol c a).1 = true
    rw [h]
    rw [show (evalP (.around r ref) mol c a).1
          = (evalPred ((mol.length + 2) * (predFuel ref mol.length + 2) + 2 + 1)
              (.around r ref) mol c a).1 from rfl] at haround
    rw [haround]
    rfl

/-- Witness for C2 at a concrete stale-cache input: a context caching an
empty mask under the key of `around 1 all`. -/
theorem C2_witness :
    ((freshCtx.setAroundCache (aroundKeyOfAround ⟨false, 1, 0⟩ .tru) []).hasAroundCache
        (aroundKeyOfAround ⟨false, 1, 0⟩ .tru) = true)
    ∧ (((freshCtx.setAroundCache (aroundKeyOfAround ⟨false, 1, 0⟩ .tru) []).getAroundCache
        (aroundKeyOfAround ⟨false, 1, 0⟩ .tru)).length ≤ 0)
    ∧ ((evalP (.around ⟨false, 1, 0⟩ .tru) []
          (freshCtx.setAroundCache (aroundKeyOfAround ⟨false, 1, 0⟩ .tru) [])
          ⟨0, [], 6, [], 1, 'A', ' ', 0, 0, 0, 0, []⟩).1 = false
      ∧ (evalP (.beyond ⟨false, 1, 0⟩ .tru) []
          (freshCtx.setAroundCache (aroundKeyOfAround ⟨false, 1, 0⟩ .tru) [])
          ⟨0, [], 6, [], 1, 'A', ' ', 0, 0, 0, 0, []⟩).1 = true) :=
  ⟨by decide, by decide,
    (C2_beyond_is_not_around ⟨false, 1, 0⟩ .tru []
        (freshCtx.setAroundCache (aroundKeyOfAround ⟨false, 1, 0⟩ .tru) [])
        ⟨0, [], 6, [], 1, 'A', ' ', 0, 0, 0, 0, []⟩).2
      (by decide) (by decide)⟩

/-! ## C3: one shared mask, one computation, per (radius, reference) -/

/-- `operator[]`-assignment followed by `find` on the same key yields the
written value. -/
theorem assocFind_assocSet_self {α : Type} (l : List (Str × α)) (k : Str)
    (v : α) : assocFind (assocSet l k v) k = some v := by
  induction l with
  | nil => simp [assocSet, assocFind]
  | cons h t ih =>
      rcases h with ⟨k0, v0⟩
      by_cases hk : k0 = k
      · simp [assocSet, hk, assocFind]
      · simp [assocSet, hk, assocFind, ih]

/-- After one `GetAroundMask` call, a second call under the same key
(from any of the three distance-predicate kinds, at any fuel) finds the
cached mask: it returns the same mask and leaves the context unchanged. -/
theorem getAroundMask_computed_once (f g : Nat) (key : Str) (r : DecF)
    (ref : Pred) (mol : Molecule) (c : Ctx) :
    getAroundMask (f + 1) key r ref mol
        ((getAroundMask (g + 1) key r ref mol c).2)
      = getAroundMask (g + 1) key r ref mol c := by
  simp only [getAroundMask]
  by_cases hc : c.hasAroundCache key
  · simp [hc]
  · simp only [hc, Bool.false_eq_true, if_false]
    rcases maskMarkLoop g ref (decValue r) mol mol c
        (List.replicate mol.length false) with ⟨mask, c1⟩
    simp only [Ctx.hasAroundCache, Ctx.setAroundCache, Ctx.getAroundCache,
      assocFind_assocSet_self, Option.isSome_some, Option.getD_some, if_true]

/-- C3: `Around`, `XAround` and `Beyond` build the identical cache-key
string for the same radius and reference; the shared mask is computed at
most once per evaluation context (a second `GetAroundMask` under the
same key returns the cached mask and does not modify the context);
`XAround` additionally rejects any atom that itself matches the
reference; and `Beyond` reports the negation of the mask bit that
`Around` reports. -/
theorem C3_shared_mask_cache (r : DecF) (ref : Pred) :
    (aroundKeyOfXAround r ref = aroundKeyOfAround r ref ∧
      aroundKeyOfBeyond r ref = aroundKeyOfAround r ref)
    ∧ (∀ f g : Nat, ∀ mol : Molecule, ∀ c : Ctx,
        getAroundMask (f + 1) (aroundKeyOfAround r ref) r ref mol
            ((getAroundMask (g + 1) (aroundKeyOfAround r ref) r ref mol c).2)
          = getAroundMask (g + 1) (aroundKeyOfAround r ref) r ref mol c)
    ∧ (∀ f : Nat, ∀ mol : Molecule, ∀ c : Ctx, ∀ a : Atom,
        (evalPred f ref mol c a).1 = true →
        (evalPred (f + 1) (.xaround r ref) mol c a).1 = false)
    ∧ (∀ f : Nat, ∀ mol : Molecule, ∀ c : Ctx, ∀ a : Atom,
        (evalPred (f + 1) (.beyond r ref) mol c a).1
          = !(decide (a.idx <
                ((getAroundMask f (aroundKeyOfAround r ref) r ref mol c).1).length)
              && ((getAroundMask f (aroundKeyOfAround r ref) r ref mol
                    c).1).getD a.idx false)) := by
  refine ⟨⟨rfl, rfl⟩, ?_, ?_, ?_⟩
  · intro f g mol c
    exact getAroundMask_computed_once f g (aroundKeyOfAround r ref) r ref mol c
  · intro f mol c a hrm
    simp only [evalPred]
    rcases he : evalPred f ref mol c a with ⟨rm, c1⟩
    rw [he] at hrm
    simp only at hrm
    simp [hrm]
  · intro f mol c a
    simp only [evalPred]
    rw [show aroundKeyOfBeyond r ref = aroundKeyOfAround r ref from rfl]
    rcases getAroundMask f (aroundKeyOfAround r ref) r ref mol c with ⟨mask, c2⟩
    simp only
    by_cases h : a.idx < mask.length
    · simp [h, Nat.not_le.mpr h]
    · simp [h, Nat.le_of_not_lt h]

/-- Witness for C3 at concrete inputs: the reference `all` matches every
atom, so `xaround 1 all` rejects it. -/
theorem C3_witness :
    (evalPred 1 .tru [] freshCtx ⟨0, [], 6, [], 1, 'A', ' ', 0, 0, 0, 0, []⟩).1
        = true
    ∧ (evalPred 2 (.xaround ⟨false, 1, 0⟩ .tru) [] freshCtx
        ⟨0, [], 6, [], 1, 'A', ' ', 0, 0, 0, 0, []⟩).1 = false :=
  ⟨by decide,
    (C3_shared_mask_cache ⟨false, 1, 0⟩ .tru).2.2.1 1 [] freshCtx
      ⟨0, [], 6, [], 1, 'A', ' ', 0, 0, 0, 0, []⟩ (by decide)⟩

/-! ## C4: Xor semantics and the early exit -/

/-- The fuel budget of a child list strictly exceeds its length. -/
theorem predFuelList_gt_length (cs : List Pred) (n : Nat) :
    cs.length < predFuelList cs n := by
  induction cs with
  | nil => simp [predFuelList]
  | cons p ps ih => simp only [predFuelList, List.length_cons]; omega

/-- With fuel exceeding the list length (so the loop itself never runs
out), the Xor loop returns true iff the pending count plus the number of
matching children — as counted by the no-short-circuit scan `xorFull` —
is exactly one. -/
theorem xorLoop_eq_exactly_one (cs : List Pred) :
    ∀ f : Nat, ∀ mol : Molecule, ∀ c : Ctx, ∀ a : Atom, ∀ count : Nat,
    cs.length < f →
    (xorLoop f cs mol c a count).1
      = (count + (xorFull f cs mol c a).1 == 1) := by
  induction cs with
  | nil =>
      intro f mol c a count hf
      obtain ⟨f', rfl⟩ : ∃ f', f = f' + 1 := ⟨f - 1, by omega⟩
      simp [xorLoop, xorFull]
  | cons p ps ih =>
      intro f mol c a count hf
      obtain ⟨f', rfl⟩ : ∃ f', f = f' + 1 := ⟨f - 1, by omega⟩
      have hf' : ps.length < f' := by
        simp only [List.length_cons] at hf; omega
      simp only [xorLoop, xorFull]
      rcases evalPred f' p mol c a with ⟨b, c1⟩
      simp only
      rcases b with _ | _
      · simp only [if_false, Bool.false_eq_true]
        rcases hx : xorFull f' ps mol c1 a with ⟨m, c2⟩
        have := ih f' mol c1 a count hf'
        rw [hx] at this
        simpa using this
      · simp only [if_true]
        by_cases hc : count + 1 > 1
        · rcases hx : xorFull f' ps mol c1 a with ⟨m, c2⟩
          have : ¬ (count + (1 + m) = 1) := by omega
          simp [hc, Nat.beq_eq_true_eq, this]
        · have hc0 : count = 0 := by omega
          subst hc0
          rcases hx : xorFull f' ps mol c1 a with ⟨m, c2⟩
          have := ih f' mol c1 a 1 hf'
          rw [hx] at this
          simp only [hc, if_false]
          simpa [Nat.add_comm] using this

/-- With fuel exceeding the list length, if at most one child matches in
total then the loop evaluates every child (the early exit fires only on a
second match). -/
theorem xorLoop_evaluates_all (cs : List Pred) :
    ∀ f : Nat, ∀ mol : Molecule, ∀ c : Ctx, ∀ a : Atom, ∀ count : Nat,
    cs.length < f →
    count + (xorFull f cs mol c a).1 ≤ 1 →
    (xorLoopCount f cs mol c a count).2.2 = cs.length := by
  induction cs with
  | nil =>
      intro f mol c a count hf _
      obtain ⟨f', rfl⟩ : ∃ f', f = f' + 1 := ⟨f - 1, by omega⟩
      simp [xorLoopCount]
  | cons p ps ih =>
      intro f mol c a count hf hm
      obtain ⟨f', rfl⟩ : ∃ f', f = f' + 1 := ⟨f - 1, by omega⟩
      have hf' : ps.length < f' := by
        simp only [List.length_cons] at hf; omega
      simp only [xorLoopCount]
      rcases he : evalPred f' p mol c a with ⟨b, c1⟩
      simp only [xorFull, he] at hm
      rcases b with _ | _
      · simp only [Bool.false_eq_true, if_false]
        have := ih f' mol c1 a count hf' (by simpa using hm)
        rw [this]
        simp
      · simp only [if_true]
        have hm' : count + (1 + (xorFull f' ps mol c1 a).1) ≤ 1 := by
          simpa using hm
        have hcount : count = 0 := by omega
        subst hcount
        simp only [Nat.zero_add, show ¬ ((1 : Nat) > 1) by omega, if_false]
        have h1 : (1 : Nat) + (xorFull f' ps mol c1 a).1 ≤ 1 := by omega
        have := ih f' mol c1 a 1 hf' h1
        rw [this]
        simp

/-- C4 (counterexample): the claim "Xor evaluates all of its children
(no short-circuit)" is false at the concrete input of three
always-matching children: the evaluation loop (instrumented to count
child `Evaluate` calls, at exactly the fuel the entry point supplies)
evaluates only two of the three children before the early
`return false`. -/
theorem C4_counterexample :
    (xorLoopCount (predFuelList [Pred.tru, Pred.tru, Pred.tru] 0)
        [Pred.tru, Pred.tru, Pred.tru] [] freshCtx
        ⟨0, [], 6, [], 1, 'A', ' ', 0, 0, 0, 0, []⟩ 0).2.2
      ≠ [Pred.tru, Pred.tru, Pred.tru].length := by decide

/-- C4 (amended): for every list of children and every atom, `Xor`
returns true iff exactly one child matched (where the number of matching
children is counted by the no-short-circuit scan the specification
describes); and whenever at most one child matches, all children are
evaluated — the implementation only stops early once a second match has
been seen. -/
theorem C4_xor_exactly_one (cs : List Pred) (mol : Molecule) (c : Ctx)
    (a : Atom) :
    ((evalP (.xor cs) mol c a).1
        = ((xorFull (predFuelList cs mol.length) cs mol c a).1 == 1))
    ∧ ((xorFull (predFuelList cs mol.length) cs mol c a).1 ≤ 1 →
        (xorLoopCount (predFuelList cs mol.length) cs mol c a 0).2.2
          = cs.length) := by
  constructor
  · show (xorLoop (predFuelList cs mol.length) cs mol c a 0).1 = _
    have := xorLoop_eq_exactly_one cs (predFuelList cs mol.length) mol c a 0
      (predFuelList_gt_length cs mol.length)
    simpa using this
  · intro h
    exact xorLoop_evaluates_all cs (predFuelList cs mol.length) mol c a 0
      (predFuelList_gt_length cs mol.length) (by simpa using h)

/-- Witness for C4 at a concrete input with exactly one matching child:
the result is true and both children are evaluated. -/
theorem C4_witness :
    ((xorFull (predFuelList [Pred.tru, Pred.fls] 0) [Pred.tru, Pred.fls]
        [] freshCtx ⟨0, [], 6, [], 1, 'A', ' ', 0, 0, 0, 0, []⟩).1 ≤ 1)
    ∧ (xorLoopCount (predFuelList [Pred.tru, Pred.fls] 0)
        [Pred.tru, Pred.fls] [] freshCtx
        ⟨0, [], 6, [], 1, 'A', ' ', 0, 0, 0, 0, []⟩ 0).2.2
      = [Pred.tru, Pred.fls].length :=
  ⟨by decide,
    (C4_xor_exactly_one [Pred.tru, Pred.fls] [] freshCtx
      ⟨0, [], 6, [], 1, 'A', ' ', 0, 0, 0, 0, []⟩).2 (by decide)⟩

/-! ## C9: classification assigns exactly one component flag -/

/-- `ClassifyResidue` never returns the empty flag. -/
theorem classifyResidue_ne_none (r : Str) : classifyResidue r ≠ .none := by
  unfold classifyResidue
  simp only []
  split <;> try decide
  split <;> try decide
  split <;> try decide
  split <;> try decide
  split <;> decide

/-- A non-empty single flag value intersects exactly one flag. -/
theorem flag_exists_unique (f0 : ComponentFlag) (h : f0 ≠ .none) :
    ∃! f : ComponentFlag, f ≠ .none ∧ f0.toNat &&& f.toNat ≠ 0 := by
  cases f0 with
  | none => exact absurd rfl h
  | protein =>
      exact ⟨.protein, by decide, fun g hg => by revert hg; cases g <;> decide⟩
  | ligand =>
      exact ⟨.ligand, by decide, fun g hg => by revert hg; cases g <;> decide⟩
  | solvent =>
      exact ⟨.solvent, by decide, fun g hg => by revert hg; cases g <;> decide⟩
  | cofactor =>
      exact ⟨.cofactor, by decide, fun g hg => by revert hg; cases g <;> decide⟩
  | nucleic =>
      exact ⟨.nucleic, by decide, fun g hg => by revert hg; cases g <;> decide⟩
  | water =>
      exact ⟨.water, by decide, fun g hg => by revert hg; cases g <;> decide⟩

/-- C9: tagging an (untagged) molecule stores, for every atom, a flag
word that intersects exactly one component flag; and a residue name
whose trimmed form lies in none of the water / amino-acid / nucleotide /
cofactor / solvent name sets is classified as `Ligand`. -/
theorem C9_classification (m : TaggedMol) (resname : Str) :
    (m.tagged = false →
      ∀ fl ∈ (tagMolecule m).compFlags,
        ∃! f : ComponentFlag, f ≠ .none ∧ fl &&& f.toNat ≠ 0)
    ∧ (trimWhitespace resname ∉ WATER_RESNAMES →
        trimWhitespace resname ∉ AMINO_ACIDS →
        trimWhitespace resname ∉ NUCLEOTIDES →
        trimWhitespace resname ∉ COFACTORS →
        trimWhitespace resname ∉ SOLVENTS →
        classifyResidue resname = .ligand) := by
  constructor
  · intro huntagged fl hfl
    unfold tagMolecule at hfl
    rw [huntagged] at hfl
    simp only [Bool.false_eq_true, if_false, List.mem_map] at hfl
    obtain ⟨a, _, rfl⟩ := hfl
    exact flag_exists_unique _ (classifyResidue_ne_none a.resName)
  · intro h1 h2 h3 h4 h5
    unfold classifyResidue
    rw [if_neg (by simpa using h1), if_neg (by simpa using h2),
      if_neg (by simpa using h3), if_neg (by simpa using h4),
      if_neg (by simpa using h5)]

/-- Witness for C9 at a concrete molecule (one atom of unknown residue
`XYZ`) and the concrete unknown residue name. -/
theorem C9_witness :
    (∃! f : ComponentFlag, f ≠ .none ∧ (2 : Nat) &&& f.toNat ≠ 0)
    ∧ classifyResidue (str "XYZ") = .ligand :=
  ⟨(C9_classification
      ⟨[⟨0, [], 6, str "XYZ", 1, 'A', ' ', 0, 0, 0, 0, []⟩], [], false⟩
      (str "XYZ")).1 rfl 2 (by decide),
    (C9_classification
      ⟨[⟨0, [], 6, str "XYZ", 1, 'A', ' ', 0, 0, 0, 0, []⟩], [], false⟩
      (str "XYZ")).2 (by decide) (by decide) (by decide) (by decide)
      (by decide)⟩

/-! ## Spatial-radius sign invariance (towards C10) -/

/-- `FindWithinRadius` compares squared distances against
`radius * radius`, so negating the radius cannot change the result. -/
theorem findWithinRadius_neg_radius (mol : Molecule) (qx qy qz r : Rat) :
    findWithinRadius mol qx qy qz (-r) = findWithinRadius mol qx qy qz r := by
  unfold findWithinRadius
  simp [neg_mul_neg]

/-! ## Parser state (Parser.cpp)

The PEGTL grammar is modelled by a recursive-descent parser over `Str`
with PEG semantics: ordered choice rewinds the *input* but, as in PEGTL,
the mutations performed by actions of already-matched inner rules
*persist* across backtracking.  Actions fire exactly where PEGTL fires
them: at the successful completion of the rule they are attached to. -/

/-- `OpContext`: per-nesting-level pending operator counts (C++ `int`s
that are only ever incremented from zero). -/
structure OpContext where
  andCount : Nat
  orCount : Nat
  xorCount : Nat
  notCount : Nat
deriving Repr, DecidableEq

/-- `ParserState`. -/
structure PState where
  operands : List Pred
  currentValue : Str
  valueList : List Str
  firstNumber : Int
  secondNumber : Int
  compOp : CmpOp
  currentRadius : DecF
  hierChain : Str
  hierResi : Int
  hierName : Str
  contexts : List OpContext

/-- `ParserState()`: one zeroed operator context, empty stacks,
`macro_resi = -1`. -/
def initPState : PState :=
  { operands := []
    currentValue := []
    valueList := []
    firstNumber := 0
    secondNumber := 0
    compOp := .eq
    currentRadius := ⟨false, 0, 0⟩
    hierChain := []
    hierResi := -1
    hierName := []
    contexts := [⟨0, 0, 0, 0⟩] }

/-- C++ exceptions that can escape a parser action. -/
inductive CppExn where
  /-- `OESel::SelectionError` (Error.h) thrown inside an action. -/
  | selectionError (msg : Str)
  /-- `std::out_of_range` from `std::stoi` / `std::stof`. -/
  | outOfRange (what : Str)
deriving Repr, DecidableEq

/-- Result of one grammar rule: success with the remaining input, local
failure (backtrackable — the mutated state persists, the input rewinds),
an escaping C++ exception, or fuel exhaustion (model artifact). -/
inductive PRes where
  | ok (st : PState) (rest : Str)
  | fail (st : PState)
  | exn (e : CppExn)
  | fuelOut

/-- `ParserState::currentContext()` updates. -/
def mapTopCtx (st : PState) (f : OpContext → OpContext) : PState :=
  { st with
    contexts :=
      match st.contexts with
      | [] => []
      | c :: rest => f c :: rest }

/-- `ParserState::pushContext`. -/
def pushContextS (st : PState) : PState :=
  { st with contexts := ⟨0, 0, 0, 0⟩ :: st.contexts }

/-- `ParserState::popContext` (keeps at least one context). -/
def popContextS (st : PState) : PState :=
  { st with
    contexts :=
      match st.contexts with
      | _ :: c2 :: rest => c2 :: rest
      | l => l }

/-- `ParserState::pushOperand`. -/
def pushOperand (st : PState) (p : Pred) : PState :=
  { st with operands := p :: st.operands }

/-! ## Elementary token rules -/

/-- `TAO_PEGTL_ISTRING`: case-insensitive ASCII literal match; returns
the remaining input on success. -/
def istr : Str → Str → Option Str
  | [], rest => some rest
  | _ :: _, [] => Option.none
  | k :: ks, c :: cs =>
      if c.toLower = k.toLower then istr ks cs else Option.none

/-- `pegtl::star<pegtl::space>`. -/
def wsRun (s : Str) : Str := s.dropWhile isSpaceChar

/-- `pegtl::plus<pegtl::space>`. -/
def wsReq (s : Str) : Option Str :=
  match s with
  | c :: cs => if isSpaceChar c then some (cs.dropWhile isSpaceChar) else Option.none
  | [] => Option.none

/-- `glob_char`: `alnum` or one of `* ? _ -`. -/
def isGlobChar (c : Char) : Bool :=
  c.isAlphanum || c = '*' || c = '?' || c = '_' || c = '-'

/-- `pegtl::digit`. -/
def isDigitChar (c : Char) : Bool := c.isDigit

/-- `pegtl::alpha`. -/
def isAlphaChar (c : Char) : Bool := c.isAlpha

/-- `glob_pattern`: `plus<glob_char>`; returns (matched, rest). -/
def takeGlob (s : Str) : Option (Str × Str) :=
  let p := s.takeWhile isGlobChar
  if p = [] then Option.none else some (p, s.dropWhile isGlobChar)

/-- `number`: `plus<digit>`. -/
def takeDigits (s : Str) : Option (Str × Str) :=
  let p := s.takeWhile isDigitChar
  if p = [] then Option.none else some (p, s.dropWhile isDigitChar)

/-- `quoted_string`: `'"' (not '"')* '"'`; returns the full matched text
(including the quotes, as `in.string()` does). -/
def takeQuoted (s : Str) : Option (Str × Str) :=
  match s with
  | '"' :: rest =>
      let inner := rest.takeWhile (fun c => c ≠ '"')
      match rest.dropWhile (fun c => c ≠ '"') with
      | '"' :: rest2 => some ('"' :: inner ++ ['"'], rest2)
      | _ => Option.none
  | _ => Option.none

/-- `element_symbol`: one letter with an optional second letter. -/
def takeElement (s : Str) : Option (Str × Str) :=
  match s with
  | c :: d :: rest =>
      if isAlphaChar c then
        if isAlphaChar d then some ([c, d], rest) else some ([c], d :: rest)
      else Option.none
  | [c] => if isAlphaChar c then some ([c], []) else Option.none
  | [] => Option.none

/-- Numeric value of a digit string (helper for `std::stoi`/`std::stof`). -/
def digitsToNat : Str → Nat → Nat
  | [], acc => acc
  | c :: cs, acc => digitsToNat cs (acc * 10 + (c.toNat - 48))

/-- `INT_MAX`. -/
def INT_MAX : Nat := 2147483647

/-- `FLT_MAX` as an integer (the overflow threshold of `std::stof`;
rounding at the exact boundary is not modelled). -/
def FLT_MAX_NAT : Nat := 340282346638528859811704183484516925440

/-- `std::stoi` on a digit-only string: the parsed value, or
`std::out_of_range` beyond `INT_MAX`. -/
def stoiModel (digits : Str) : Except CppExn Int :=
  let v := digitsToNat digits 0
  if v > INT_MAX then .error (.outOfRange (str "stoi"))
  else .ok (v : Int)

/-- `std::stof` on a `float_num`-shaped string: exact decimal value
(normalized), or `std::out_of_range` beyond `FLT_MAX`. -/
def stofModel (text : Str) : Except CppExn DecF :=
  let (neg, t) :=
    match text with
    | '-' :: t => (true, t)
    | t => (false, t)
  let ip := t.takeWhile isDigitChar
  let t2 := t.dropWhile isDigitChar
  let fp :=
    match t2 with
    | '.' :: t3 => t3.takeWhile isDigitChar
    | _ => []
  let mant := digitsToNat ip 0 * 10 ^ fp.length + digitsToNat fp 0
  if mant > FLT_MAX_NAT * 10 ^ fp.length then
    .error (.outOfRange (str "stof"))
  else .ok (normDecF ⟨neg, mant, fp.length⟩)

/-! ## Parser actions (the `Action<Rule>` specializations) -/

/-- `Action<Grammar::value>`: strip surrounding quotes, record the value. -/
def valueAction (st : PState) (matched : Str) : PState :=
  let val :=
    if matched.length ≥ 2 ∧ matched.head? = some '"' ∧
        matched.getLast? = some '"' then
      (matched.drop 1).take (matched.length - 2)
    else matched
  { st with currentValue := val, valueList := st.valueList ++ [val] }

/-- `Action<Grammar::name_spec>`: one value becomes a `NamePredicate`,
several become an `OrPredicate` of them; the list is cleared. -/
def nameSpecAction (st : PState) : PState :=
  let st' :=
    if st.valueList.length = 1 then
      pushOperand st (.name (st.valueList.headD []))
    else pushOperand st (.or (st.valueList.map Pred.name))
  { st' with valueList := [] }

/-- `Action<Grammar::resn_spec>`. -/
def resnSpecAction (st : PState) : PState :=
  let st' :=
    if st.valueList.length = 1 then
      pushOperand st (.resn (st.valueList.headD []))
    else pushOperand st (.or (st.valueList.map Pred.resn))
  { st' with valueList := [] }

/-- `Action<Grammar::number>`: shift then `std::stoi`. -/
def numberAction (st : PState) (digits : Str) : Except CppExn PState :=
  match stoiModel digits with
  | .error e => .error e
  | .ok v =>
      .ok { st with secondNumber := st.firstNumber, firstNumber := v }

/-- The `switch` of `Action<Grammar::index_comp_spec>` translating
`ResiPredicate::Op` to `IndexPredicate::Op` (default: `Eq`). -/
def translateIndexOp : CmpOp → CmpOp
  | .lt => .lt
  | .le => .le
  | .gt => .gt
  | .ge => .ge
  | _ => .eq

/-! ## Non-recursive specifier rules

Each function is one grammar alternative with its actions, in the
failure-persistence discipline described above. -/

/-- `value`: `sor<quoted_string, glob_pattern>`, with `Action<value>`. -/
def valueRule (st : PState) (s : Str) : Option (PState × Str) :=
  match takeQuoted s with
  | some (m, rest) => some (valueAction st m, rest)
  | Option.none =>
      match takeGlob s with
      | some (m, rest) => some (valueAction st m, rest)
      | Option.none => Option.none

/-- The `star<seq<one<'+'>, value>>` tail of `value_list` (fuel bounded
by the input length; one character is consumed per iteration). -/
def valueListTail : Nat → PState → Str → PState × Str
  | 0, st, s => (st, s)
  | fuel + 1, st, s =>
      match s with
      | '+' :: r1 =>
          match valueRule st r1 with
          | some (st1, r2) => valueListTail fuel st1 r2
          | Option.none => (st, s)
      | _ => (st, s)

/-- `value_list`: `list<value, one<'+'>>`. -/
def valueListRule (st : PState) (s : Str) : Option (PState × Str) :=
  match valueRule st s with
  | some (st1, r1) => some (valueListTail (r1.length + 1) st1 r1)
  | Option.none => Option.none

/-- `name_spec` with its keyword and completion actions. -/
def nameSpecRule (st : PState) (s : Str) : PRes :=
  match istr (str "name") s with
  | Option.none => .fail st
  | some r1 =>
      let st1 := { st with valueList := [] }
      match wsReq r1 with
      | Option.none => .fail st1
      | some r2 =>
          match valueListRule st1 r2 with
          | Option.none => .fail st1
          | some (st2, r3) => .ok (nameSpecAction st2) r3

/-- `resn_spec`. -/
def resnSpecRule (st : PState) (s : Str) : PRes :=
  match istr (str "resn") s with
  | Option.none => .fail st
  | some r1 =>
      let st1 := { st with valueList := [] }
      match wsReq r1 with
      | Option.none => .fail st1
      | some r2 =>
          match valueListRule st1 r2 with
          | Option.none => .fail st1
          | some (st2, r3) => .ok (resnSpecAction st2) r3

/-- `comp_op` with the four operator actions (`>=`, `<=`, `>`, `<`;
two-character spellings first). -/
def compOpRule (st : PState) (s : Str) : Option (PState × Str) :=
  match s with
  | '>' :: '=' :: rest => some ({ st with compOp := .ge }, rest)
  | '<' :: '=' :: rest => some ({ st with compOp := .le }, rest)
  | '>' :: rest => some ({ st with compOp := .gt }, rest)
  | '<' :: rest => some ({ st with compOp := .lt }, rest)
  | _ => Option.none

/-- `number` with `Action<number>` (may throw from `std::stoi`). -/
def numberRule (st : PState) (s : Str) : PRes :=
  match takeDigits s with
  | Option.none => .fail st
  | some (digits, rest) =>
      match numberAction st digits with
      | .error e => .exn e
      | .ok st1 => .ok st1 rest

/-- `range`: `number '-' number` (both number actions fire). -/
def rangeRule (st : PState) (s : Str) : PRes :=
  match numberRule st s with
  | .ok st1 r1 =>
      match r1 with
      | '-' :: r2 => numberRule st1 r2
      | _ => .fail st1
  | other => other

/-- `resi_comp_spec`: keyword, comparison operator, number; pushes a
comparison `ResiPredicate` and resets the operator to `Eq`. -/
def resiCompSpecRule (st : PState) (s : Str) : PRes :=
  match istr (str "resi") s with
  | Option.none => .fail st
  | some r1 =>
      match wsReq r1 with
      | Option.none => .fail st
      | some r2 =>
          match compOpRule st r2 with
          | Option.none => .fail st
          | some (st1, r3) =>
              match numberRule st1 (wsRun r3) with
              | .ok st2 r4 =>
                  .ok { pushOperand st2 (.resi st2.firstNumber 0 st2.compOp)
                        with compOp := .eq } r4
              | other => other

/-- `resi_range_spec`: pushes `ResiPredicate(second, first)` (range). -/
def resiRangeSpecRule (st : PState) (s : Str) : PRes :=
  match istr (str "resi") s with
  | Option.none => .fail st
  | some r1 =>
      match wsReq r1 with
      | Option.none => .fail st
      | some r2 =>
          match rangeRule st r2 with
          | .ok st1 r3 =>
              .ok (pushOperand st1 (.resi st1.secondNumber st1.firstNumber .range)) r3
          | other => other

/-- `resi_exact_spec`. -/
def resiExactSpecRule (st : PState) (s : Str) : PRes :=
  match istr (str "resi") s with
  | Option.none => .fail st
  | some r1 =>
      match wsReq r1 with
      | Option.none => .fail st
      | some r2 =>
          match numberRule st r2 with
          | .ok st1 r3 =>
              .ok (pushOperand st1 (.resi st1.firstNumber 0 .eq)) r3
          | other => other

/-- `resi_spec`: ordered choice of the three forms. -/
def resiSpecRule (st : PState) (s : Str) : PRes :=
  match resiCompSpecRule st s with
  | .fail st1 =>
      match resiRangeSpecRule st1 s with
      | .fail st2 => resiExactSpecRule st2 s
      | other => other
  | other => other

/-- `chain_spec`: keyword plus a single alphabetic chain id (the
`chain_id` action records it in `current_value`). -/
def chainSpecRule (st : PState) (s : Str) : PRes :=
  match istr (str "chain") s with
  | Option.none => .fail st
  | some r1 =>
      match wsReq r1 with
      | Option.none => .fail st
      | some r2 =>
          match r2 with
          | c :: r3 =>
              if isAlphaChar c then
                let st1 := { st with currentValue := [c] }
                .ok (pushOperand st1 (.chain st1.currentValue)) r3
              else .fail st
          | [] => .fail st

/-- `elem_spec`: the `ElemPredicate` constructor resolves the symbol to
an atomic number and normalizes the stored spelling. -/
def elemSpecRule (st : PState) (s : Str) : PRes :=
  match istr (str "elem") s with
  | Option.none => .fail st
  | some r1 =>
      match wsReq r1 with
      | Option.none => .fail st
      | some r2 =>
          match takeElement r2 with
          | Option.none => .fail st
          | some (sym, r3) =>
              let st1 := { st with currentValue := sym }
              .ok (pushOperand st1
                (.elem (OEGetAtomicNum st1.currentValue)
                  (normalizeElement st1.currentValue))) r3

/-- `index_comp_spec` (casts the stored int to unsigned). -/
def indexCompSpecRule (st : PState) (s : Str) : PRes :=
  match istr (str "index") s with
  | Option.none => .fail st
  | some r1 =>
      match wsReq r1 with
      | Option.none => .fail st
      | some r2 =>
          match compOpRule st r2 with
          | Option.none => .fail st
          | some (st1, r3) =>
              match numberRule st1 (wsRun r3) with
              | .ok st2 r4 =>
                  .ok { pushOperand st2
                        (.index st2.firstNumber.toNat 0
                          (translateIndexOp st2.compOp))
                        with compOp := .eq } r4
              | other => other

/-- `index_range_spec`. -/
def indexRangeSpecRule (st : PState) (s : Str) : PRes :=
  match istr (str "index") s with
  | Option.none => .fail st
  | some r1 =>
      match wsReq r1 with
      | Option.none => .fail st
      | some r2 =>
          match rangeRule st r2 with
          | .ok st1 r3 =>
              .ok (pushOperand st1
                (.index st1.secondNumber.toNat st1.firstNumber.toNat .range)) r3
          | other => other

/-- `index_exact_spec`. -/
def indexExactSpecRule (st : PState) (s : Str) : PRes :=
  match istr (str "index") s with
  | Option.none => .fail st
  | some r1 =>
      match wsReq r1 with
      | Option.none => .fail st
      | some r2 =>
          match numberRule st r2 with
          | .ok st1 r3 =>
              .ok (pushOperand st1 (.index st1.firstNumber.toNat 0 .eq)) r3
          | other => other

/-- `index_spec`. -/
def indexSpecRule (st : PState) (s : Str) : PRes :=
  match indexCompSpecRule st s with
  | .fail st1 =>
      match indexRangeSpecRule st1 s with
      | .fail st2 => indexExactSpecRule st2 s
      | other => other
  | other => other

/-- A keyword-only specifier: match one case-insensitive spelling and
push a fixed predicate. -/
def kwSpecRule (kw : String) (p : Pred) (st : PState) (s : Str) : PRes :=
  match istr (str kw) s with
  | Option.none => .fail st
  | some rest => .ok (pushOperand st p) rest

/-- A keyword-only specifier with two accepted spellings (first spelling
attempted first, as in the `sor` keyword definitions). -/
def kwSpecRule2 (kw1 kw2 : String) (p : Pred) (st : PState) (s : Str) :
    PRes :=
  match istr (str kw1) s with
  | Option.none =>
      match istr (str kw2) s with
      | Option.none => .fail st
      | some rest => .ok (pushOperand st p) rest
  | some rest => .ok (pushOperand st p) rest

/-- `float_num` with `Action<float_num>` (`std::stof`). -/
def floatNumRule (st : PState) (s : Str) : PRes :=
  let (sign, t) :=
    match s with
    | '-' :: t => (([('-' : Char)] : Str), t)
    | t => (([] : Str), t)
  match takeDigits t with
  | Option.none => .fail st
  | some (ip, r1) =>
      let (matched, rest) :=
        match r1 with
        | '.' :: r2 =>
            (sign ++ ip ++ ['.'] ++ r2.takeWhile isDigitChar,
              r2.dropWhile isDigitChar)
        | _ => (sign ++ ip, r1)
      match stofModel matched with
      | .error e => .exn e
      | .ok d => .ok { st with currentRadius := d } rest

/-- The hierarchical `//chain/resi/name` rule with its five actions
(`macro_prefix` resets, the three optional slots record their matched
text, `macro_spec` compiles the conjunction). -/
def hierSpecRule (st : PState) (s : Str) : PRes :=
  match s with
  | '/' :: '/' :: r1 =>
      let st1 := { st with hierChain := [], hierResi := -1, hierName := [] }
      let (chainTxt, r2) :=
        match r1 with
        | c :: rest => if isAlphaChar c then ([c], rest) else ([], r1)
        | [] => ([], r1)
      -- the nested `chain_id` action fires when a chain letter matched
      let st1' :=
        if chainTxt ≠ [] then { st1 with currentValue := chainTxt } else st1
      let st2 := { st1' with hierChain := chainTxt }
      match r2 with
      | '/' :: r3 =>
          let resiTxt := r3.takeWhile isDigitChar
          let r4 := r3.dropWhile isDigitChar
          -- the nested `number` action fires first, then `macro_resi`
          match
            (if resiTxt = [] then .ok st2
             else
               match numberAction st2 resiTxt with
               | .error e => .error e
               | .ok stn =>
                   match stoiModel resiTxt with
                   | .error e => .error e
                   | .ok v => .ok { stn with hierResi := v } :
              Except CppExn PState) with
          | .error e => .exn e
          | .ok st3 =>
              match r4 with
              | '/' :: r5 =>
                  let (nameTxt, r6) :=
                    match takeGlob r5 with
                    | some (m, rest) => (m, rest)
                    | Option.none => ([], r5)
                  let st4 := { st3 with hierName := nameTxt }
                  let conditions : List Pred :=
                    (if st4.hierChain ≠ [] then [.chain st4.hierChain] else [])
                    ++ (if st4.hierResi ≥ 0 then
                          [.resi st4.hierResi 0 .eq] else [])
                    ++ (if st4.hierName ≠ [] then [.name st4.hierName] else [])
                  match conditions with
                  | [] => .ok (pushOperand st4 .tru) r6
                  | [c] => .ok (pushOperand st4 c) r6
                  | _ => .ok (pushOperand st4 (.and conditions)) r6
              | _ => .fail st3
      | _ => .fail st2
  | _ => .fail st

/-! ## Operator actions and reducers -/

/-- `ParserState::currentContext()` (top of the context stack). -/
def topCtx (st : PState) : OpContext := st.contexts.headD ⟨0, 0, 0, 0⟩

/-- `Action<not_op>`. -/
def incNot (st : PState) : PState :=
  mapTopCtx st (fun c => { c with notCount := c.notCount + 1 })

/-- `Action<and_op>`. -/
def incAnd (st : PState) : PState :=
  mapTopCtx st (fun c => { c with andCount := c.andCount + 1 })

/-- `Action<or_op>`. -/
def incOr (st : PState) : PState :=
  mapTopCtx st (fun c => { c with orCount := c.orCount + 1 })

/-- `Action<xor_op>`. -/
def incXor (st : PState) : PState :=
  mapTopCtx st (fun c => { c with xorCount := c.xorCount + 1 })

/-- The pop/wrap/push loop of `Action<not_expr>`. -/
def wrapNotLoop : Nat → PState → PState
  | 0, st => st
  | k + 1, st =>
      wrapNotLoop k
        (match st.operands with
         | p :: rest => { st with operands := .not p :: rest }
         | [] => st)

/-- `Action<not_expr>`: if `not` tokens are pending at this level, reset
the count and wrap the top operand that many times (when a top operand
exists). -/
def notExprAction (st : PState) : PState :=
  let k := (topCtx st).notCount
  if k > 0 then
    let st1 := mapTopCtx st (fun c => { c with notCount := 0 })
    match st1.operands with
    | [] => st1
    | _ :: _ => wrapNotLoop k st1
  else st

/-- `Action<and_expr>`: pop `count+1` operands, restore left-to-right
order, push one combined `AndPredicate` — guarded by the stack-depth
check (on underflow the combine is silently skipped). -/
def andExprAction (st : PState) : PState :=
  let k := (topCtx st).andCount
  if k > 0 then
    let st1 := mapTopCtx st (fun c => { c with andCount := 0 })
    if k + 1 ≤ st1.operands.length then
      pushOperand { st1 with operands := st1.operands.drop (k + 1) }
        (.and (st1.operands.take (k + 1)).reverse)
    else st1
  else st

/-- `Action<or_expr>`. -/
def orExprAction (st : PState) : PState :=
  let k := (topCtx st).orCount
  if k > 0 then
    let st1 := mapTopCtx st (fun c => { c with orCount := 0 })
    if k + 1 ≤ st1.operands.length then
      pushOperand { st1 with operands := st1.operands.drop (k + 1) }
        (.or (st1.operands.take (k + 1)).reverse)
    else st1
  else st

/-- `Action<xor_expr>`. -/
def xorExprAction (st : PState) : PState :=
  let k := (topCtx st).xorCount
  if k > 0 then
    let st1 := mapTopCtx st (fun c => { c with xorCount := 0 })
    if k + 1 ≤ st1.operands.length then
      pushOperand { st1 with operands := st1.operands.drop (k + 1) }
        (.xor (st1.operands.take (k + 1)).reverse)
    else st1
  else st

/-- `Action<around_spec>`: pop the reference (`popOperand` throws
`SelectionError` on an empty stack), push the distance node. -/
def aroundSpecAction (st : PState) : Except CppExn PState :=
  match st.operands with
  | [] =>
      .error (.selectionError
        (str "Internal parser error: operand stack underflow"))
  | p :: rest =>
      .ok { st with operands := .around st.currentRadius p :: rest }

/-- `Action<xaround_spec>`. -/
def xaroundSpecAction (st : PState) : Except CppExn PState :=
  match st.operands with
  | [] =>
      .error (.selectionError
        (str "Internal parser error: operand stack underflow"))
  | p :: rest =>
      .ok { st with operands := .xaround st.currentRadius p :: rest }

/-- `Action<beyond_spec>`. -/
def beyondSpecAction (st : PState) : Except CppExn PState :=
  match st.operands with
  | [] =>
      .error (.selectionError
        (str "Internal parser error: operand stack underflow"))
  | p :: rest =>
      .ok { st with operands := .beyond st.currentRadius p :: rest }

/-- `Action<byres_spec>`. -/
def byresSpecAction (st : PState) : Except CppExn PState :=
  match st.operands with
  | [] =>
      .error (.selectionError
        (str "Internal parser error: operand stack underflow"))
  | p :: rest => .ok { st with operands := .byres p :: rest }

/-- `Action<bychain_spec>`. -/
def bychainSpecAction (st : PState) : Except CppExn PState :=
  match st.operands with
  | [] =>
      .error (.selectionError
        (str "Internal parser error: operand stack underflow"))
  | p :: rest => .ok { st with operands := .bychain p :: rest }

/-- PEG ordered choice: on local failure try the next alternative on the
original input, keeping the (possibly mutated) state. -/
def orElseR (r : PRes) (f : PState → PRes) : PRes :=
  match r with
  | .fail st => f st
  | other => other

/-! ## The expression grammar (recursive rules) -/

mutual

/-- `expression : xor_expr`. -/
def parseExpression : Nat → PState → Str → PRes
  | 0, _, _ => .fuelOut
  | fuel + 1, st, s => parseXorExpr fuel st s

/-- `xor_expr`: an `or_expr`, a star of `xor`-joined `or_expr`s, then
`Action<xor_expr>`. -/
def parseXorExpr : Nat → PState → Str → PRes
  | 0, _, _ => .fuelOut
  | fuel + 1, st, s =>
      match parseOrExpr fuel st s with
      | .ok st1 r1 =>
          match parseXorStar fuel st1 r1 with
          | .ok st2 r2 => .ok (xorExprAction st2) r2
          | other => other
      | other => other

/-- `star<seq<ws_required, xor_op, ws_required, or_expr>>`; a failed
iteration rewinds the input but keeps fired actions. -/
def parseXorStar : Nat → PState → Str → PRes
  | 0, _, _ => .fuelOut
  | fuel + 1, st, s =>
      match wsReq s with
      | Option.none => .ok st s
      | some r1 =>
          match istr (str "xor") r1 with
          | Option.none => .ok st s
          | some r2 =>
              let st1 := incXor st
              match wsReq r2 with
              | Option.none => .ok st1 s
              | some r3 =>
                  match parseOrExpr fuel st1 r3 with
                  | .ok st2 r4 => parseXorStar fuel st2 r4
                  | .fail st2 => .ok st2 s
                  | other => other

/-- `or_expr`. -/
def parseOrExpr : Nat → PState → Str → PRes
  | 0, _, _ => .fuelOut
  | fuel + 1, st, s =>
      match parseAndExpr fuel st s with
      | .ok st1 r1 =>
          match parseOrStar fuel st1 r1 with
          | .ok st2 r2 => .ok (orExprAction st2) r2
          | other => other
      | other => other

/-- `star<seq<ws_required, or_op, ws_required, and_expr>>`. -/
def parseOrStar : Nat → PState → Str → PRes
  | 0, _, _ => .fuelOut
  | fuel + 1, st, s =>
      match wsReq s with
      | Option.none => .ok st s
      | some r1 =>
          match istr (str "or") r1 with
          | Option.none => .ok st s
          | some r2 =>
              let st1 := incOr st
              match wsReq r2 with
              | Option.none => .ok st1 s
              | some r3 =>
                  match parseAndExpr fuel st1 r3 with
                  | .ok st2 r4 => parseOrStar fuel st2 r4
                  | .fail st2 => .ok st2 s
                  | other => other

/-- `and_expr`. -/
def parseAndExpr : Nat → PState → Str → PRes
  | 0, _, _ => .fuelOut
  | fuel + 1, st, s =>
      match parseNotExpr fuel st s with
      | .ok st1 r1 =>
          match parseAndStar fuel st1 r1 with
          | .ok st2 r2 => .ok (andExprAction st2) r2
          | other => other
      | other => other

/-- `star<seq<ws_required, and_op, ws_required, not_expr>>`. -/
def parseAndStar : Nat → PState → Str → PRes
  | 0, _, _ => .fuelOut
  | fuel + 1, st, s =>
      match wsReq s with
      | Option.none => .ok st s
      | some r1 =>
          match istr (str "and") r1 with
          | Option.none => .ok st s
          | some r2 =>
              let st1 := incAnd st
              match wsReq r2 with
              | Option.none => .ok st1 s
              | some r3 =>
                  match parseNotExpr fuel st1 r3 with
                  | .ok st2 r4 => parseAndStar fuel st2 r4
                  | .fail st2 => .ok st2 s
                  | other => other

/-- `not_expr : sor<seq<not_op, ws_required, not_expr>, primary>`, with
`Action<not_expr>` firing on every successful `not_expr` (including the
innermost, where the accumulated `not` count is applied). -/
def parseNotExpr : Nat → PState → Str → PRes
  | 0, _, _ => .fuelOut
  | fuel + 1, st, s =>
      let branch1 : PRes :=
        match istr (str "not") s with
        | Option.none => .fail st
        | some r1 =>
            let st1 := incNot st
            match wsReq r1 with
            | Option.none => .fail st1
            | some r2 => parseNotExpr fuel st1 r2
      match branch1 with
      | .ok st2 r3 => .ok (notExprAction st2) r3
      | .fail stf =>
          match parsePrimary fuel stf s with
          | .ok st2 r3 => .ok (notExprAction st2) r3
          | other => other
      | other => other

/-- `primary : sor<paren_expr, specifier>`. -/
def parsePrimary : Nat → PState → Str → PRes
  | 0, _, _ => .fuelOut
  | fuel + 1, st, s =>
      match parseParen fuel st s with
      | .fail st1 => parseSpecifier fuel st1 s
      | other => other

/-- `paren_expr`, with the context push/pop actions on the
parenthesis markers. -/
def parseParen : Nat → PState → Str → PRes
  | 0, _, _ => .fuelOut
  | fuel + 1, st, s =>
      match s with
      | '(' :: r1 =>
          let st1 := pushContextS st
          match parseExpression fuel st1 (wsRun r1) with
          | .ok st2 r2 =>
              match wsRun r2 with
              | ')' :: r3 => .ok (popContextS st2) r3
              | _ => .fail st2
          | other => other
      | _ => .fail st

/-- `around_spec` (keyword, radius, nested primary). -/
def parseAroundSpec : Nat → PState → Str → PRes
  | 0, _, _ => .fuelOut
  | fuel + 1, st, s =>
      match istr (str "around") s with
      | Option.none => .fail st
      | some r1 =>
          match wsReq r1 with
          | Option.none => .fail st
          | some r2 =>
              match floatNumRule st r2 with
              | .ok st1 r3 =>
                  match wsReq r3 with
                  | Option.none => .fail st1
                  | some r4 =>
                      match parsePrimary fuel st1 r4 with
                      | .ok st2 r5 =>
                          match aroundSpecAction st2 with
                          | .error e => .exn e
                          | .ok st3 => .ok st3 r5
                      | other => other
              | other => other

/-- `xaround_spec`. -/
def parseXAroundSpec : Nat → PState → Str → PRes
  | 0, _, _ => .fuelOut
  | fuel + 1, st, s =>
      match istr (str "xaround") s with
      | Option.none => .fail st
      | some r1 =>
          match wsReq r1 with
          | Option.none => .fail st
          | some r2 =>
              match floatNumRule st r2 with
              | .ok st1 r3 =>
                  match wsReq r3 with
                  | Option.none => .fail st1
                  | some r4 =>
                      match parsePrimary fuel st1 r4 with
                      | .ok st2 r5 =>
                          match xaroundSpecAction st2 with
                          | .error e => .exn e
                          | .ok st3 => .ok st3 r5
                      | other => other
              | other => other

/-- `beyond_spec`. -/
def parseBeyondSpec : Nat → PState → Str → PRes
  | 0, _, _ => .fuelOut
  | fuel + 1, st, s =>
      match istr (str "beyond") s with
      | Option.none => .fail st
      | some r1 =>
          match wsReq r1 with
          | Option.none => .fail st
          | some r2 =>
              match floatNumRule st r2 with
              | .ok st1 r3 =>
                  match wsReq r3 with
                  | Option.none => .fail st1
                  | some r4 =>
                      match parsePrimary fuel st1 r4 with
                      | .ok st2 r5 =>
                          match beyondSpecAction st2 with
                          | .error e => .exn e
                          | .ok st3 => .ok st3 r5
                      | other => other
              | other => other

/-- `byres_spec`. -/
def parseByresSpec : Nat → PState → Str → PRes
  | 0, _, _ => .fuelOut
  | fuel + 1, st, s =>
      match istr (str "byres") s with
      | Option.none => .fail st
      | some r1 =>
          match wsReq r1 with
          | Option.none => .fail st
          | some r2 =>
              match parsePrimary fuel st r2 with
              | .ok st2 r3 =>
                  match byresSpecAction st2 with
                  | .error e => .exn e
                  | .ok st3 => .ok st3 r3
              | other => other

/-- `bychain_spec`. -/
def parseBychainSpec : Nat → PState → Str → PRes
  | 0, _, _ => .fuelOut
  | fuel + 1, st, s =>
      match istr (str "bychain") s with
      | Option.none => .fail st
      | some r1 =>
          match wsReq r1 with
          | Option.none => .fail st
          | some r2 =>
              match parsePrimary fuel st r2 with
              | .ok st2 r3 =>
                  match bychainSpecAction st2 with
                  | .error e => .exn e
                  | .ok st3 => .ok st3 r3
              | other => other

/-- `specifier`: the ordered choice of Parser.cpp lines 192–202,
alternatives tried in source order. -/
def parseSpecifier : Nat → PState → Str → PRes
  | 0, _, _ => .fuelOut
  | fuel + 1, st, s =>
      orElseR (hierSpecRule st s) fun st =>
      orElseR (nameSpecRule st s) fun st =>
      orElseR (resnSpecRule st s) fun st =>
      orElseR (resiSpecRule st s) fun st =>
      orElseR (chainSpecRule st s) fun st =>
      orElseR (elemSpecRule st s) fun st =>
      orElseR (indexSpecRule st s) fun st =>
      orElseR (kwSpecRule "protein" .protein st s) fun st =>
      orElseR (kwSpecRule "ligand" .ligand st s) fun st =>
      orElseR (kwSpecRule "water" .water st s) fun st =>
      orElseR (kwSpecRule "solvent" .solvent st s) fun st =>
      orElseR (kwSpecRule "organic" .organic st s) fun st =>
      orElseR (kwSpecRule2 "backbone" "bb" .backbone st s) fun st =>
      orElseR (kwSpecRule2 "sidechain" "sc" .sidechain st s) fun st =>
      orElseR (kwSpecRule2 "metals" "metal" .metal st s) fun st =>
      orElseR (kwSpecRule "helix" .helix st s) fun st =>
      orElseR (kwSpecRule "sheet" .sheet st s) fun st =>
      orElseR (kwSpecRule "turn" .turn st s) fun st =>
      orElseR (kwSpecRule "loop" .loop st s) fun st =>
      orElseR (kwSpecRule "heavy" .heavy st s) fun st =>
      orElseR (kwSpecRule2 "polar_hydrogen" "polarh" .polarHydrogen st s)
        fun st =>
      orElseR
        (kwSpecRule2 "nonpolar_hydrogen" "apolarh" .nonpolarHydrogen st s)
        fun st =>
      orElseR (kwSpecRule2 "hydrogen" "h" .hydrogen st s) fun st =>
      orElseR (parseXAroundSpec fuel st s) fun st =>
      orElseR (parseAroundSpec fuel st s) fun st =>
      orElseR (parseBeyondSpec fuel st s) fun st =>
      orElseR (parseBychainSpec fuel st s) fun st =>
      orElseR (parseByresSpec fuel st s) fun st =>
      orElseR (kwSpecRule "all" .tru st s) fun st =>
      kwSpecRule "none" .fls st s

end

/-- `selection : seq<ws, expression, ws, eof>`. -/
def parseSelRule (fuel : Nat) (st : PState) (s : Str) : PRes :=
  match parseExpression fuel st (wsRun s) with
  | .ok st1 r1 =>
      match wsRun r1 with
      | [] => .ok st1 []
      | _ => .fail st1
  | other => other

/-- What a caller of `ParseSelection` observes. -/
inductive ParseOutcome where
  /-- a predicate tree is returned -/
  | ok (p : Pred)
  /-- a `SelectionError` reaches the caller -/
  | err (msg : Str)
  /-- an exception other than `SelectionError` escapes (`std::out_of_range`) -/
  | uncaught (e : CppExn)
  /-- fuel exhaustion: a model artifact, unreachable for the fuel supplied -/
  | fuelOut

/-- Fuel supplied to the grammar (amply covers the recursion depth and
the star iterations, each of which consumes input). -/
def parseFuel (s : Str) : Nat := 16 * s.length + 64

/-- `ParseSelection` (Parser.cpp): empty input yields the always-true
predicate; a local grammar failure or an empty operand stack raises
`SelectionError`; a `SelectionError` thrown by an action propagates; any
other exception escapes unnamed.  (The `catch (pegtl::parse_error)`
branch is unreachable: the grammar contains no `must<>` rule, so PEGTL
reports failure by returning `false`.)  `getResult` returns the top of
the operand stack. -/
def parseSelection (sele : Str) : ParseOutcome :=
  if sele = [] then .ok .tru
  else
    match parseSelRule (parseFuel sele) initPState sele with
    | .ok st1 _ =>
        match st1.operands with
        | [] => .err (str "No predicate created for: " ++ sele)
        | p :: _ => .ok p
    | .fail _ => .err (str "Failed to parse selection: " ++ sele)
    | .exn (.selectionError m) => .err m
    | .exn e => .uncaught e
    | .fuelOut => .fuelOut

/-! ## C1: the `id`/`alt`/`b`/`bfactor`/`frag`/`fragment` keywords -/

/-- C1: the grammar's `specifier` rule (Parser.cpp 192–202) has no
alternative for the property keywords `id`, `alt`, `b`/`bfactor` or
`frag`/`fragment` (and the predicate classes `IdPredicate`,
`AltPredicate`, `BFactorPredicate`, `FragmentPredicate` are declared in
AtomPropertyPredicates.h but implemented nowhere): every such input is
rejected with a `SelectionError`, so no input string compiles to those
predicates.  This contradicts the spec's claimed selection surface. -/
theorem C1_id_alt_bfactor_fragment_rejected :
    parseSelection (str "id 42")
        = .err (str "Failed to parse selection: id 42")
    ∧ parseSelection (str "alt A")
        = .err (str "Failed to parse selection: alt A")
    ∧ parseSelection (str "b 30.5")
        = .err (str "Failed to parse selection: b 30.5")
    ∧ parseSelection (str "bfactor 30.5")
        = .err (str "Failed to parse selection: bfactor 30.5")
    ∧ parseSelection (str "frag 1")
        = .err (str "Failed to parse selection: frag 1")
    ∧ parseSelection (str "fragment 1")
        = .err (str "Failed to parse selection: fragment 1") :=
  ⟨rfl, rfl, rfl, rfl, rfl, rfl⟩

/-! ## C5: operator precedence -/

/-- C5: `not` binds tighter than `and`, which binds tighter than `or`,
which binds tighter than `xor`; in particular
`"name X* or name Y* and name *1"` parses to `Or(X*, And(Y*, *1))`,
whose per-atom result is `X* or (Y* and *1)` for every atom of every
molecule in every context. -/
theorem C5_precedence :
    (parseSelection (str "name X* or name Y* and name *1")
        = .ok (.or [.name (str "X*"),
                    .and [.name (str "Y*"), .name (str "*1")]]))
    ∧ ∀ (mol : Molecule) (c : Ctx) (a : Atom),
        (evalP (.or [.name (str "X*"),
                     .and [.name (str "Y*"), .name (str "*1")]]) mol c a).1
          = (globMatch (str "X*") a.name
              || (globMatch (str "Y*") a.name &&
                  globMatch (str "*1") a.name)) := by
  refine ⟨rfl, ?_⟩
  intro mol c a
  show (evalPred 11 _ mol c a).1 = _
  cases hX : globMatch (str "X*") a.name <;>
    cases hY : globMatch (str "Y*") a.name <;>
    cases h1 : globMatch (str "*1") a.name <;>
    simp [evalPred, orLoop, andLoop, nameEval, patternMatch,
      show hasWildcard (str "X*") = true from rfl,
      show hasWildcard (str "Y*") = true from rfl,
      show hasWildcard (str "*1") = true from rfl, hX, hY, h1]

/-! ## C8: error propagation out of `ParseSelection` -/

/-- C8: an out-of-range integer in a recognized numeric field is a parse
failure that does *not* surface as a `SelectionError`: the `std::stoi`
call inside `Action<number>` throws `std::out_of_range`, and
`ParseSelection` catches only `pegtl::parse_error`, so the exception
escapes to the caller untyped.  (Grammar mismatches such as an unmatched
parenthesis do surface as `SelectionError`, with no partial result.) -/
theorem C8_stoi_out_of_range_escapes :
    parseSelection (str "resi 99999999999999999999")
        = .uncaught (.outOfRange (str "stoi"))
    ∧ parseSelection (str "(name CA")
        = .err (str "Failed to parse selection: (name CA") :=
  ⟨rfl, rfl⟩

/-! ## C10: negative radii -/

/-- C10: the grammar's `float_num` accepts a leading minus, so
`around`/`xaround`/`beyond` parse with a negative radius; and
`FindWithinRadius` compares squared distances against
`radius * radius`, so the query with radius `-r` returns exactly the
atom indices of the query with radius `r`, for every query point. -/
theorem C10_negative_radius :
    parseSelection (str "around -3 all") = .ok (.around ⟨true, 3, 0⟩ .tru)
    ∧ parseSelection (str "xaround -3 all")
        = .ok (.xaround ⟨true, 3, 0⟩ .tru)
    ∧ parseSelection (str "beyond -3 all")
        = .ok (.beyond ⟨true, 3, 0⟩ .tru)
    ∧ ∀ (mol : Molecule) (qx qy qz r : Rat),
        findWithinRadius mol qx qy qz (-r)
          = findWithinRadius mol qx qy qz r :=
  ⟨rfl, rfl, rfl, findWithinRadius_neg_radius⟩

/-! ## C7 (counterexample): quoted values break the canonical round trip -/

/-- C7 is false as stated: the parser accepts `name "C A"` (a quoted
pattern containing a space) and produces a predicate whose canonical
form is `name C A`; parsing that canonical form fails, so
`parse(P.to_canonical())` does not succeed for every parser-produced
predicate `P`. -/
theorem C7_counterexample :
    parseSelection (str "name \"C A\"") = .ok (.name (str "C A"))
    ∧ toCanonical (.name (str "C A")) = str "name C A"
    ∧ parseSelection (toCanonical (.name (str "C A")))
        = .err (str "Failed to parse selection: name C A") :=
  ⟨rfl, rfl, rfl⟩

/-! ## Towards C6: reference semantics and cache coherence

`evalFresh` — evaluation in a newly constructed context — is the
reference meaning of a predicate at one atom (one context per
(molecule, selection) evaluation session, per the specification).  The
refinement theorem below shows that evaluation from any *coherent*
context (one whose cache entries are the from-fresh values of
distance/expansion subtrees) returns exactly the from-fresh result. -/

/-- The from-fresh result of `Predicate::Evaluate` at one atom. -/
def evalFresh (p : Pred) (mol : Molecule) (a : Atom) : Bool :=
  (evalP p mol freshCtx a).1

mutual

/-- All `(radius, reference)` payloads of `around`/`xaround`/`beyond`
nodes inside a predicate (the three kinds share one cache key and one
mask computation). -/
def dsubA : Pred → List (DecF × Pred)
  | .and cs => dsubAList cs
  | .or cs => dsubAList cs
  | .xor cs => dsubAList cs
  | .not c => dsubA c
  | .around r ref => (r, ref) :: dsubA ref
  | .xaround r ref => (r, ref) :: dsubA ref
  | .beyond r ref => (r, ref) :: dsubA ref
  | .byres c => dsubA c
  | .bychain c => dsubA c
  | _ => []

def dsubAList : List (Pred) → List (DecF × Pred)
  | [] => []
  | p :: ps => dsubA p ++ dsubAList ps

/-- All `byres` children inside a predicate. -/
def dsubR : Pred → List Pred
  | .and cs => dsubRList cs
  | .or cs => dsubRList cs
  | .xor cs => dsubRList cs
  | .not c => dsubR c
  | .around _ ref => dsubR ref
  | .xaround _ ref => dsubR ref
  | .beyond _ ref => dsubR ref
  | .byres c => c :: dsubR c
  | .bychain c => dsubR c
  | _ => []

def dsubRList : List (Pred) → List Pred
  | [] => []
  | p :: ps => dsubR p ++ dsubRList ps

/-- All `bychain` children inside a predicate. -/
def dsubC : Pred → List Pred
  | .and cs => dsubCList cs
  | .or cs => dsubCList cs
  | .xor cs => dsubCList cs
  | .not c => dsubC c
  | .around _ ref => dsubC ref
  | .xaround _ ref => dsubC ref
  | .beyond _ ref => dsubC ref
  | .byres c => dsubC c
  | .bychain c => c :: dsubC c
  | _ => []

def dsubCList : List (Pred) → List Pred
  | [] => []
  | p :: ps => dsubC p ++ dsubCList ps

end

/-- The distance/expansion payloads of `p` all occur in `root`. -/
def SubOf (p root : Pred) : Prop :=
  (∀ x ∈ dsubA p, x ∈ dsubA root) ∧ (∀ x ∈ dsubR p, x ∈ dsubR root) ∧
    (∀ x ∈ dsubC p, x ∈ dsubC root)

/-- `SubOf` for a child list. -/
def SubOfL (cs : List Pred) (root : Pred) : Prop :=
  (∀ x ∈ dsubAList cs, x ∈ dsubA root) ∧
    (∀ x ∈ dsubRList cs, x ∈ dsubR root) ∧
    (∀ x ∈ dsubCList cs, x ∈ dsubC root)

/-! ### Pure from-fresh specifications of the evaluator loops -/

/-- `AndPredicate::Evaluate`, with each child at its from-fresh value. -/
def andLoopSpec : List Pred → Molecule → Atom → Bool
  | [], _, _ => true
  | p :: ps, mol, a =>
      if evalFresh p mol a then andLoopSpec ps mol a else false

/-- `OrPredicate::Evaluate`, from-fresh. -/
def orLoopSpec : List Pred → Molecule → Atom → Bool
  | [], _, _ => false
  | p :: ps, mol, a =>
      if evalFresh p mol a then true else orLoopSpec ps mol a

/-- `XOrPredicate::Evaluate`, from-fresh. -/
def xorLoopSpec : List Pred → Molecule → Atom → Nat → Bool
  | [], _, _, count => count == 1
  | p :: ps, mol, a, count =>
      if evalFresh p mol a then
        if count + 1 > 1 then false else xorLoopSpec ps mol a (count + 1)
      else xorLoopSpec ps mol a count

/-- The reference-atom scan of `GetAroundMask`, with each reference test
at its from-fresh value. -/
def maskFromFresh (ref : Pred) (rv : Rat) (mol : Molecule) :
    List Atom → List Bool → List Bool
  | [], mask => mask
  | b :: rest, mask =>
      maskFromFresh ref rv mol rest
        (if evalFresh ref mol b then
          markIndices mask (findWithinRadiusAtom mol b rv)
         else mask)

/-- The shared around-mask of a `(radius, reference)` pair. -/
def specMask (r : DecF) (ref : Pred) (mol : Molecule) : List Bool :=
  maskFromFresh ref (decValue r) mol mol (List.replicate mol.length false)

/-- First pass of `GetMatchingResidues`, from-fresh. -/
def resKeysFromFresh (child : Pred) (mol : Molecule) :
    List Atom → List ResidueKey → List ResidueKey
  | [], acc => acc
  | b :: rest, acc =>
      resKeysFromFresh child mol rest
        (if evalFresh child mol b then insertNew acc (getResidueKey b)
         else acc)

/-- The cached result set of `byres` for a child predicate. -/
def resSetSpec (child : Pred) (mol : Molecule) : List Nat :=
  (mol.filter (fun b =>
      (resKeysFromFresh child mol mol []).contains (getResidueKey b))).map
    (fun b => b.idx)

/-- First pass of `GetMatchingChainAtoms`, from-fresh. -/
def chainKeysFromFresh (child : Pred) (mol : Molecule) :
    List Atom → List Char → List Char
  | [], acc => acc
  | b :: rest, acc =>
      chainKeysFromFresh child mol rest
        (if evalFresh child mol b then insertNew acc b.chainId else acc)

/-- The cached result set of `bychain` for a child predicate. -/
def chainSetSpec (child : Pred) (mol : Molecule) : List Nat :=
  (mol.filter (fun b =>
      (chainKeysFromFresh child mol mol []).contains b.chainId)).map
    (fun b => b.idx)

/-! ### Coherence and key-faithfulness -/

/-- A context is coherent (relative to a root predicate) when every
cache entry is the from-fresh value of a distance/expansion subtree of
the root, stored under that subtree's key. -/
def Coh (root : Pred) (mol : Molecule) (c : Ctx) : Prop :=
  (∀ e ∈ c.aroundCache, ∃ x ∈ dsubA root,
      e.1 = aroundKeyOfAround x.1 x.2 ∧ e.2 = specMask x.1 x.2 mol)
  ∧ (∀ e ∈ c.residueCache, ∃ x ∈ dsubR root,
      e.1 = byresKey x ∧ e.2 = resSetSpec x mol)
  ∧ (∀ e ∈ c.chainCache, ∃ x ∈ dsubC root,
      e.1 = bychainKey x ∧ e.2 = chainSetSpec x mol)

/-- Key-faithfulness: within the root's distance/expansion subtrees,
equal cache keys denote equal cached values.  (The specification
stipulates this globally: "two predicates with the same canonical string
are defined to be semantically equivalent for caching purposes".) -/
def KeyFaithful (root : Pred) (mol : Molecule) : Prop :=
  (∀ x ∈ dsubA root, ∀ y ∈ dsubA root,
      aroundKeyOfAround x.1 x.2 = aroundKeyOfAround y.1 y.2 →
      specMask x.1 x.2 mol = specMask y.1 y.2 mol)
  ∧ (∀ x ∈ dsubR root, ∀ y ∈ dsubR root,
      byresKey x = byresKey y → resSetSpec x mol = resSetSpec y mol)
  ∧ (∀ x ∈ dsubC root, ∀ y ∈ dsubC root,
      bychainKey x = bychainKey y → chainSetSpec x mol = chainSetSpec y mol)

/-- A fresh context is coherent for any root. -/
theorem coh_freshCtx (root : Pred) (mol : Molecule) :
    Coh root mol freshCtx := by
  refine ⟨?_, ?_, ?_⟩ <;> intro e he <;> simp [freshCtx] at he

/-- `find` hits are entries of the association list. -/
theorem assocFind_mem {α : Type} (l : List (Str × α)) (k : Str) (v : α)
    (h : assocFind l k = some v) : (k, v) ∈ l := by
  induction l with
  | nil => simp [assocFind] at h
  | cons e t ih =>
      rcases e with ⟨k0, v0⟩
      by_cases hk : k0 = k
      · subst hk
        simp [assocFind] at h
        simp [h]
      · simp [assocFind, hk] at h
        exact List.mem_cons_of_mem _ (ih h)

/-- Entries after an `operator[]` write: an old entry or the new one. -/
theorem mem_assocSet {α : Type} (l : List (Str × α)) (k : Str) (v : α)
    (e : Str × α) (h : e ∈ assocSet l k v) : e ∈ l ∨ e = (k, v) := by
  induction l with
  | nil => simpa [assocSet] using h
  | cons e0 t ih =>
      rcases e0 with ⟨k0, v0⟩
      by_cases hk : k0 = k
      · subst hk
        simp [assocSet] at h
        rcases h with h | h
        · right; simpa using h
        · left; exact List.mem_cons_of_mem _ h
      · simp only [assocSet, if_neg hk, List.mem_cons] at h
        rcases h with h | h
        · left; simp [h]
        · rcases ih h with h' | h'
          · left; exact List.mem_cons_of_mem _ h'
          · right; exact h'

/-! ### Fuel-budget arithmetic -/

/-- The fuel `getAroundMask`/`getMatchingResidues`/`getMatchingChainAtoms`
receive from their caller. -/
def gmNeed (ref : Pred) (n : Nat) : Nat := (n + 2) * (predFuel ref n + 2) + 2

/-- The fuel the first-pass scans need. -/
def mmNeed (ref : Pred) (atoms : List Atom) (n : Nat) : Nat :=
  atoms.length * (predFuel ref n + 2) + predFuel ref n + 2

theorem predFuel_pos (p : Pred) (n : Nat) : 1 ≤ predFuel p n := by
  cases p <;> simp [predFuel]

theorem predFuelList_pos (cs : List Pred) (n : Nat) :
    1 ≤ predFuelList cs n := by
  cases cs <;> simp [predFuelList]

theorem predFuel_le_gmNeed (ref : Pred) (n : Nat) :
    predFuel ref n ≤ gmNeed ref n := by
  have h : predFuel ref n + 2 ≤ (n + 2) * (predFuel ref n + 2) :=
    Nat.le_mul_of_pos_left _ (by omega)
  unfold gmNeed
  omega

theorem mmNeed_le_gmNeed (ref : Pred) (mol : Molecule) :
    mmNeed ref mol mol.length + 1 ≤ gmNeed ref mol.length := by
  unfold mmNeed gmNeed
  have h : (mol.length + 2) * (predFuel ref mol.length + 2)
      = mol.length * (predFuel ref mol.length + 2)
        + 2 * (predFuel ref mol.length + 2) := by ring
  omega

theorem mmNeed_cons (ref : Pred) (b : Atom) (rest : List Atom) (n : Nat) :
    mmNeed ref (b :: rest) n = mmNeed ref rest n + (predFuel ref n + 2) := by
  unfold mmNeed
  have h : (b :: rest).length * (predFuel ref n + 2)
      = rest.length * (predFuel ref n + 2) + (predFuel ref n + 2) := by
    simp [List.length_cons]; ring
  omega

/-! ### SubOf decomposition helpers -/

theorem subOfL_cons {p : Pred} {ps : List Pred} {root : Pred}
    (h : SubOfL (p :: ps) root) : SubOf p root ∧ SubOfL ps root := by
  obtain ⟨hA, hR, hC⟩ := h
  simp only [dsubAList, dsubRList, dsubCList, List.mem_append] at hA hR hC
  exact ⟨⟨fun x hx => hA x (Or.inl hx), fun x hx => hR x (Or.inl hx),
      fun x hx => hC x (Or.inl hx)⟩,
    ⟨fun x hx => hA x (Or.inr hx), fun x hx => hR x (Or.inr hx),
      fun x hx => hC x (Or.inr hx)⟩⟩

theorem subOf_distance {r : DecF} {ref root : Pred}
    (hA : ∀ x ∈ (r, ref) :: dsubA ref, x ∈ dsubA root)
    (hR : ∀ x ∈ dsubR ref, x ∈ dsubR root)
    (hC : ∀ x ∈ dsubC ref, x ∈ dsubC root) :
    (r, ref) ∈ dsubA root ∧ SubOf ref root :=
  ⟨hA _ (List.mem_cons_self _ _),
    ⟨fun x hx => hA x (List.mem_cons_of_mem _ hx), hR, hC⟩⟩

/-! ### The refinement bundle -/

/-- Refinement of every evaluator function at one fuel value: run from
any coherent context, each returns its from-fresh specification value
and preserves coherence. -/
structure RefineAt (root : Pred) (mol : Molecule) (F : Nat) : Prop where
  ev : ∀ p c a, predFuel p mol.length ≤ F → Coh root mol c → SubOf p root →
    (evalPred F p mol c a).1 = evalFresh p mol a ∧
      Coh root mol (evalPred F p mol c a).2
  andL : ∀ cs c a, predFuelList cs mol.length ≤ F → Coh root mol c →
    SubOfL cs root →
    (andLoop F cs mol c a).1 = andLoopSpec cs mol a ∧
      Coh root mol (andLoop F cs mol c a).2
  orL : ∀ cs c a, predFuelList cs mol.length ≤ F → Coh root mol c →
    SubOfL cs root →
    (orLoop F cs mol c a).1 = orLoopSpec cs mol a ∧
      Coh root mol (orLoop F cs mol c a).2
  xorL : ∀ cs c a count, predFuelList cs mol.length ≤ F → Coh root mol c →
    SubOfL cs root →
    (xorLoop F cs mol c a count).1 = xorLoopSpec cs mol a count ∧
      Coh root mol (xorLoop F cs mol c a count).2
  mask : ∀ ref rv atoms c m, mmNeed ref atoms mol.length ≤ F →
    Coh root mol c → SubOf ref root →
    (maskMarkLoop F ref rv atoms mol c m).1
        = maskFromFresh ref rv mol atoms m ∧
      Coh root mol (maskMarkLoop F ref rv atoms mol c m).2
  gam : ∀ r ref c, gmNeed ref mol.length ≤ F → Coh root mol c →
    (r, ref) ∈ dsubA root → SubOf ref root →
    (getAroundMask F (aroundKeyOfAround r ref) r ref mol c).1
        = specMask r ref mol ∧
      Coh root mol (getAroundMask F (aroundKeyOfAround r ref) r ref mol c).2
  resK : ∀ child atoms c acc, mmNeed child atoms mol.length ≤ F →
    Coh root mol c → SubOf child root →
    (resFirstPass F child atoms mol c acc).1
        = resKeysFromFresh child mol atoms acc ∧
      Coh root mol (resFirstPass F child atoms mol c acc).2
  gmr : ∀ child c, gmNeed child mol.length ≤ F → Coh root mol c →
    child ∈ dsubR root → SubOf child root →
    (getMatchingResidues F child mol c).1 = resSetSpec child mol ∧
      Coh root mol (getMatchingResidues F child mol c).2
  chK : ∀ child atoms c acc, mmNeed child atoms mol.length ≤ F →
    Coh root mol c → SubOf child root →
    (chainFirstPass F child atoms mol c acc).1
        = chainKeysFromFresh child mol atoms acc ∧
      Coh root mol (chainFirstPass F child atoms mol c acc).2
  gmc : ∀ child c, gmNeed child mol.length ≤ F → Coh root mol c →
    child ∈ dsubC root → SubOf child root →
    (getMatchingChainAtoms F child mol c).1 = chainSetSpec child mol ∧
      Coh root mol (getMatchingChainAtoms F child mol c).2

theorem subOf_byres {q root : Pred} (h : SubOf (.byres q) root) :
    q ∈ dsubR root ∧ SubOf q root := by
  obtain ⟨hA, hR, hC⟩ := h
  refine ⟨hR q (List.mem_cons_self _ _), hA, ?_, hC⟩
  exact fun x hx => hR x (List.mem_cons_of_mem _ hx)

theorem subOf_bychain {q root : Pred} (h : SubOf (.bychain q) root) :
    q ∈ dsubC root ∧ SubOf q root := by
  obtain ⟨hA, hR, hC⟩ := h
  refine ⟨hC q (List.mem_cons_self _ _), hA, hR, ?_⟩
  exact fun x hx => hC x (List.mem_cons_of_mem _ hx)

/-- The refinement theorem: with sufficient fuel, every evaluator
function run from any coherent context computes its from-fresh
specification value and preserves coherence.  Key-faithfulness of the
root discharges cache hits whose entry was stored by a different
subtree carrying the same key. -/
theorem refineAll (root : Pred) (mol : Molecule)
    (hKF : KeyFaithful root mol) : ∀ F, RefineAt root mol F := by
  intro F
  induction F using Nat.strong_induction_on with
  | _ F ih =>
  refine ⟨?_, ?_, ?_, ?_, ?_, ?_, ?_, ?_, ?_, ?_⟩
  -- ev
  · intro p c a hfuel hcoh hsub
    obtain ⟨F', rfl⟩ : ∃ G, F = G + 1 :=
      ⟨F - 1, by have := predFuel_pos p mol.length; omega⟩
    cases p
    case and cs =>
      simp only [evalPred]
      have hL : predFuelList cs mol.length ≤ F' := by
        simp only [predFuel] at hfuel; omega
      have h1 := (ih F' (by omega)).andL cs c a hL hcoh hsub
      have h2 := (ih (predFuelList cs mol.length) (by omega)).andL cs
        freshCtx a (le_refl _) (coh_freshCtx root mol) hsub
      exact ⟨h1.1.trans h2.1.symm, h1.2⟩
    case or cs =>
      simp only [evalPred]
      have hL : predFuelList cs mol.length ≤ F' := by
        simp only [predFuel] at hfuel; omega
      have h1 := (ih F' (by omega)).orL cs c a hL hcoh hsub
      have h2 := (ih (predFuelList cs mol.length) (by omega)).orL cs
        freshCtx a (le_refl _) (coh_freshCtx root mol) hsub
      exact ⟨h1.1.trans h2.1.symm, h1.2⟩
    case xor cs =>
      simp only [evalPred]
      have hL : predFuelList cs mol.length ≤ F' := by
        simp only [predFuel] at hfuel; omega
      have h1 := (ih F' (by omega)).xorL cs c a 0 hL hcoh hsub
      have h2 := (ih (predFuelList cs mol.length) (by omega)).xorL cs
        freshCtx a 0 (le_refl _) (coh_freshCtx root mol) hsub
      exact ⟨h1.1.trans h2.1.symm, h1.2⟩
    case not q =>
      have hq : predFuel q mol.length ≤ F' := by
        simp only [predFuel] at hfuel; omega
      have hq1 : predFuel q mol.length + 1 < F' + 1 := by
        simp only [predFuel] at hfuel; omega
      have h1 := (ih F' (by omega)).ev q c a hq hcoh hsub
      have h2 := (ih (predFuel q mol.length + 1) hq1).ev q
        freshCtx a (by omega) (coh_freshCtx root mol) hsub
      refine ⟨?_, ?_⟩
      · show (!(evalPred F' q mol c a).1) = evalFresh (.not q) mol a
        rw [h1.1,
          show evalFresh (.not q) mol a
              = !(evalPred (predFuel q mol.length + 1) q mol freshCtx a).1
            from rfl,
          h2.1]
      · show Coh root mol (evalPred F' q mol c a).2
        exact h1.2
    case around r ref =>
      simp only [evalPred]
      obtain ⟨hmemA, hsubRef⟩ := subOf_distance hsub.1 hsub.2.1 hsub.2.2
      have hgm : gmNeed ref mol.length ≤ F' := by
        simp only [predFuel] at hfuel; unfold gmNeed; omega
      have h1 := (ih F' (by omega)).gam r ref c hgm hcoh hmemA hsubRef
      have h2 := (ih (gmNeed ref mol.length) (by omega)).gam r ref
        freshCtx (le_refl _) (coh_freshCtx root mol) hmemA hsubRef
      have hfr : evalFresh (.around r ref) mol a
          = (decide (a.idx < (specMask r ref mol).length) &&
              (specMask r ref mol).getD a.idx false) := by
        show (evalPred (gmNeed ref mol.length + 1) (.around r ref) mol
            freshCtx a).1 = _
        simp only [evalPred]
        rcases hEf : getAroundMask (gmNeed ref mol.length)
            (aroundKeyOfAround r ref) r ref mol freshCtx with ⟨mf, cf⟩
        rw [hEf] at h2
        simp only at h2 ⊢
        rw [h2.1]
      rcases hE : getAroundMask F' (aroundKeyOfAround r ref) r ref mol c
        with ⟨mask, c1⟩
      rw [hE] at h1
      simp only at h1 ⊢
      rw [hfr, h1.1]
      exact ⟨rfl, h1.2⟩
    case beyond r ref =>
      simp only [evalPred]
      obtain ⟨hmemA, hsubRef⟩ := subOf_distance hsub.1 hsub.2.1 hsub.2.2
      have hgm : gmNeed ref mol.length ≤ F' := by
        simp only [predFuel] at hfuel; unfold gmNeed; omega
      have h1 := (ih F' (by omega)).gam r ref c hgm hcoh hmemA hsubRef
      have h2 := (ih (gmNeed ref mol.length) (by omega)).gam r ref
        freshCtx (le_refl _) (coh_freshCtx root mol) hmemA hsubRef
      have hfr : evalFresh (.beyond r ref) mol a
          = (if (specMask r ref mol).length ≤ a.idx then true
             else !((specMask r ref mol).getD a.idx false)) := by
        show (evalPred (gmNeed ref mol.length + 1) (.beyond r ref) mol
            freshCtx a).1 = _
        simp only [evalPred]
        rcases hEf : getAroundMask (gmNeed ref mol.length)
            (aroundKeyOfBeyond r ref) r ref mol freshCtx with ⟨mf, cf⟩
        rw [show aroundKeyOfBeyond r ref = aroundKeyOfAround r ref from
          rfl] at hEf
        rw [hEf] at h2
        simp only at h2 ⊢
        rw [h2.1]
      rcases hE : getAroundMask F' (aroundKeyOfBeyond r ref) r ref mol c
        with ⟨mask, c1⟩
      rw [show aroundKeyOfBeyond r ref = aroundKeyOfAround r ref from
        rfl] at hE
      rw [hE] at h1
      simp only at h1 ⊢
      rw [hfr, h1.1]
      exact ⟨rfl, h1.2⟩
    case xaround r ref =>
      obtain ⟨hmemA, hsubRef⟩ := subOf_distance hsub.1 hsub.2.1 hsub.2.2
      have hP : predFuel ref mol.length ≤ gmNeed ref mol.length :=
        predFuel_le_gmNeed ref mol.length
      have hgm : gmNeed ref mol.length ≤ F' := by
        simp only [predFuel] at hfuel; unfold gmNeed; omega
      have h1 := (ih F' (by omega)).ev ref c a (by omega) hcoh hsubRef
      have h2 := (ih (gmNeed ref mol.length) (by omega)).ev ref
        freshCtx a hP (coh_freshCtx root mol) hsubRef
      have h3 := (ih F' (by omega)).gam r ref
        (evalPred F' ref mol c a).2 hgm h1.2 hmemA hsubRef
      have h4 := (ih (gmNeed ref mol.length) (by omega)).gam r ref
        (evalPred (gmNeed ref mol.length) ref mol freshCtx a).2
        (le_refl _) h2.2 hmemA hsubRef
      have hm0 : evalPred (F' + 1) (.xaround r ref) mol c a
          = (if (evalPred F' ref mol c a).1 = true
             then ((false : Bool), (evalPred F' ref mol c a).2)
             else
               (decide (a.idx < (getAroundMask F'
                    (aroundKeyOfAround r ref) r ref mol
                    (evalPred F' ref mol c a).2).1.length) &&
                  (getAroundMask F' (aroundKeyOfAround r ref) r ref mol
                    (evalPred F' ref mol c a).2).1.getD a.idx false,
                (getAroundMask F' (aroundKeyOfAround r ref) r ref mol
                  (evalPred F' ref mol c a).2).2)) := rfl
      have hfr0 : evalFresh (.xaround r ref) mol a
          = (if (evalPred (gmNeed ref mol.length) ref mol freshCtx a).1
                = true
             then ((false : Bool),
                (evalPred (gmNeed ref mol.length) ref mol freshCtx a).2)
             else
               (decide (a.idx < (getAroundMask (gmNeed ref mol.length)
                    (aroundKeyOfAround r ref) r ref mol
                    (evalPred (gmNeed ref mol.length) ref mol
                      freshCtx a).2).1.length) &&
                  (getAroundMask (gmNeed ref mol.length)
                    (aroundKeyOfAround r ref) r ref mol
                    (evalPred (gmNeed ref mol.length) ref mol
                      freshCtx a).2).1.getD a.idx false,
                (getAroundMask (gmNeed ref mol.length)
                  (aroundKeyOfAround r ref) r ref mol
                  (evalPred (gmNeed ref mol.length) ref mol
                    freshCtx a).2).2)).1 := rfl
      rw [hm0, hfr0, h1.1, h2.1, h3.1, h4.1]
      cases hb : evalFresh ref mol a
      · simp only [Bool.false_eq_true, if_false]
        exact ⟨trivial, h3.2⟩
      · simp only [if_true]
        exact ⟨trivial, h1.2⟩
    case byres q =>
      simp only [evalPred]
      obtain ⟨hmemR, hsubQ⟩ := subOf_byres hsub
      have hgm : gmNeed q mol.length ≤ F' := by
        simp only [predFuel] at hfuel; unfold gmNeed; omega
      have h1 := (ih F' (by omega)).gmr q c hgm hcoh hmemR hsubQ
      have h2 := (ih (gmNeed q mol.length) (by omega)).gmr q
        freshCtx (le_refl _) (coh_freshCtx root mol) hmemR hsubQ
      have hfr : evalFresh (.byres q) mol a
          = (resSetSpec q mol).contains a.idx := by
        show (evalPred (gmNeed q mol.length + 1) (.byres q) mol
            freshCtx a).1 = _
        simp only [evalPred]
        rcases hEf : getMatchingResidues (gmNeed q mol.length) q mol
            freshCtx with ⟨sf, cf⟩
        rw [hEf] at h2
        simp only at h2 ⊢
        rw [h2.1]
      rcases hE : getMatchingResidues F' q mol c with ⟨sres, c1⟩
      rw [hE] at h1
      simp only at h1 ⊢
      rw [hfr, h1.1]
      exact ⟨rfl, h1.2⟩
    case bychain q =>
      simp only [evalPred]
      obtain ⟨hmemC, hsubQ⟩ := subOf_bychain hsub
      have hgm : gmNeed q mol.length ≤ F' := by
        simp only [predFuel] at hfuel; unfold gmNeed; omega
      have h1 := (ih F' (by omega)).gmc q c hgm hcoh hmemC hsubQ
      have h2 := (ih (gmNeed q mol.length) (by omega)).gmc q
        freshCtx (le_refl _) (coh_freshCtx root mol) hmemC hsubQ
      have hfr : evalFresh (.bychain q) mol a
          = (chainSetSpec q mol).contains a.idx := by
        show (evalPred (gmNeed q mol.length + 1) (.bychain q) mol
            freshCtx a).1 = _
        simp only [evalPred]
        rcases hEf : getMatchingChainAtoms (gmNeed q mol.length) q mol
            freshCtx with ⟨sf, cf⟩
        rw [hEf] at h2
        simp only at h2 ⊢
        rw [h2.1]
      rcases hE : getMatchingChainAtoms F' q mol c with ⟨sres, c1⟩
      rw [hE] at h1
      simp only at h1 ⊢
      rw [hfr, h1.1]
      exact ⟨rfl, h1.2⟩
    all_goals exact ⟨rfl, hcoh⟩
  -- andL
  · intro cs c a hfuel hcoh hsub
    obtain ⟨F', rfl⟩ : ∃ G, F = G + 1 :=
      ⟨F - 1, by have := predFuelList_pos cs mol.length; omega⟩
    cases cs with
    | nil => exact ⟨rfl, hcoh⟩
    | cons p ps =>
        obtain ⟨hp, hps⟩ := subOfL_cons hsub
        have hLpos := predFuelList_pos ps mol.length
        have hPpos := predFuel_pos p mol.length
        simp only [predFuelList] at hfuel
        have hfp : predFuel p mol.length ≤ F' := by omega
        have hfps : predFuelList ps mol.length ≤ F' := by omega
        simp only [andLoop, andLoopSpec]
        have h1 := (ih F' (by omega)).ev p c a hfp hcoh hp
        rcases hE : evalPred F' p mol c a with ⟨b, c1⟩
        rw [hE] at h1
        simp only at h1 ⊢
        rw [h1.1]
        cases hb : evalFresh p mol a
        · simp only [Bool.false_eq_true, if_false]
          exact ⟨trivial, h1.2⟩
        · simp only [if_true]
          exact (ih F' (by omega)).andL ps c1 a hfps h1.2 hps
  -- orL
  · intro cs c a hfuel hcoh hsub
    obtain ⟨F', rfl⟩ : ∃ G, F = G + 1 :=
      ⟨F - 1, by have := predFuelList_pos cs mol.length; omega⟩
    cases cs with
    | nil => exact ⟨rfl, hcoh⟩
    | cons p ps =>
        obtain ⟨hp, hps⟩ := subOfL_cons hsub
        have hLpos := predFuelList_pos ps mol.length
        have hPpos := predFuel_pos p mol.length
        simp only [predFuelList] at hfuel
        have hfp : predFuel p mol.length ≤ F' := by omega
        have hfps : predFuelList ps mol.length ≤ F' := by omega
        simp only [orLoop, orLoopSpec]
        have h1 := (ih F' (by omega)).ev p c a hfp hcoh hp
        rcases hE : evalPred F' p mol c a with ⟨b, c1⟩
        rw [hE] at h1
        simp only at h1 ⊢
        rw [h1.1]
        cases hb : evalFresh p mol a
        · simp only [Bool.false_eq_true, if_false]
          exact (ih F' (by omega)).orL ps c1 a hfps h1.2 hps
        · simp only [if_true]
          exact ⟨trivial, h1.2⟩
  -- xorL
  · intro cs c a count hfuel hcoh hsub
    obtain ⟨F', rfl⟩ : ∃ G, F = G + 1 :=
      ⟨F - 1, by have := predFuelList_pos cs mol.length; omega⟩
    cases cs with
    | nil => exact ⟨rfl, hcoh⟩
    | cons p ps =>
        obtain ⟨hp, hps⟩ := subOfL_cons hsub
        have hLpos := predFuelList_pos ps mol.length
        have hPpos := predFuel_pos p mol.length
        simp only [predFuelList] at hfuel
        have hfp : predFuel p mol.length ≤ F' := by omega
        have hfps : predFuelList ps mol.length ≤ F' := by omega
        simp only [xorLoop, xorLoopSpec]
        have h1 := (ih F' (by omega)).ev p c a hfp hcoh hp
        rcases hE : evalPred F' p mol c a with ⟨b, c1⟩
        rw [hE] at h1
        simp only at h1 ⊢
        rw [h1.1]
        cases hb : evalFresh p mol a
        · simp only [Bool.false_eq_true, if_false]
          exact (ih F' (by omega)).xorL ps c1 a count hfps h1.2 hps
        · simp only [if_true]
          by_cases hc : count + 1 > 1
          · simp only [hc, if_true]
            exact ⟨trivial, h1.2⟩
          · simp only [hc, if_false]
            exact (ih F' (by omega)).xorL ps c1 a (count + 1) hfps h1.2 hps
  -- mask
  · intro ref rv atoms c m hfuel hcoh hsub
    obtain ⟨F', rfl⟩ : ∃ G, F = G + 1 :=
      ⟨F - 1, by unfold mmNeed at hfuel; omega⟩
    cases atoms with
    | nil => exact ⟨rfl, hcoh⟩
    | cons b rest =>
        have hc := mmNeed_cons ref b rest mol.length
        have hmmpos : predFuel ref mol.length + 2
            ≤ mmNeed ref rest mol.length := by unfold mmNeed; omega
        rw [hc] at hfuel
        have hfp : predFuel ref mol.length ≤ F' := by omega
        have hrest : mmNeed ref rest mol.length ≤ F' := by omega
        simp only [maskMarkLoop, maskFromFresh]
        have h1 := (ih F' (by omega)).ev ref c b hfp hcoh hsub
        rcases hE : evalPred F' ref mol c b with ⟨hit, c1⟩
        rw [hE] at h1
        simp only at h1 ⊢
        rw [h1.1]
        cases hb : evalFresh ref mol b
        · simp only [Bool.false_eq_true, if_false]
          exact (ih F' (by omega)).mask ref rv rest c1 m hrest h1.2 hsub
        · simp only [if_true]
          exact (ih F' (by omega)).mask ref rv rest c1
            (markIndices m (findWithinRadiusAtom mol b rv)) hrest h1.2 hsub
  -- gam
  · intro r ref c hfuel hcoh hmem hsub
    obtain ⟨F', rfl⟩ : ∃ G, F = G + 1 :=
      ⟨F - 1, by unfold gmNeed at hfuel; omega⟩
    simp only [getAroundMask]
    by_cases hhit : c.hasAroundCache (aroundKeyOfAround r ref) = true
    · simp only [hhit, if_true]
      obtain ⟨m, hm⟩ : ∃ m,
          assocFind c.aroundCache (aroundKeyOfAround r ref) = some m := by
        unfold Ctx.hasAroundCache at hhit
        exact Option.isSome_iff_exists.mp hhit
      obtain ⟨x, hx, hkey, hval⟩ := hcoh.1 _ (assocFind_mem _ _ _ hm)
      dsimp only at hkey hval
      have hsm := hKF.1 x hx (r, ref) hmem hkey.symm
      refine ⟨?_, hcoh⟩
      show c.getAroundCache _ = _
      unfold Ctx.getAroundCache
      rw [hm]
      simp only [Option.getD_some]
      rw [hval]
      exact hsm
    · simp only [hhit, Bool.false_eq_true, if_false]
      have hmm : mmNeed ref mol mol.length ≤ F' := by
        have h2 := mmNeed_le_gmNeed ref mol
        unfold gmNeed at hfuel h2
        omega
      have hloop := (ih F' (by omega)).mask ref (decValue r) mol c
        (List.replicate mol.length false) hmm hcoh hsub
      rcases hL : maskMarkLoop F' ref (decValue r) mol mol c
          (List.replicate mol.length false) with ⟨mask, c1⟩
      rw [hL] at hloop
      simp only at hloop ⊢
      constructor
      · show (c1.setAroundCache _ mask).getAroundCache _ = _
        unfold Ctx.getAroundCache Ctx.setAroundCache
        simp only [assocFind_assocSet_self, Option.getD_some]
        exact hloop.1
      · obtain ⟨hA, hR, hC⟩ := hloop.2
        refine ⟨?_, hR, hC⟩
        intro e he
        rcases mem_assocSet _ _ _ _ he with h | h
        · exact hA e h
        · exact ⟨(r, ref), hmem, by rw [h], by rw [h]; exact hloop.1⟩
  -- resK
  · intro child atoms c acc hfuel hcoh hsub
    obtain ⟨F', rfl⟩ : ∃ G, F = G + 1 :=
      ⟨F - 1, by unfold mmNeed at hfuel; omega⟩
    cases atoms with
    | nil => exact ⟨rfl, hcoh⟩
    | cons b rest =>
        have hc := mmNeed_cons child b rest mol.length
        have hmmpos : predFuel child mol.length + 2
            ≤ mmNeed child rest mol.length := by unfold mmNeed; omega
        rw [hc] at hfuel
        have hfp : predFuel child mol.length ≤ F' := by omega
        have hrest : mmNeed child rest mol.length ≤ F' := by omega
        simp only [resFirstPass, resKeysFromFresh]
        have h1 := (ih F' (by omega)).ev child c b hfp hcoh hsub
        rcases hE : evalPred F' child mol c b with ⟨hit, c1⟩
        rw [hE] at h1
        simp only at h1 ⊢
        rw [h1.1]
        exact (ih F' (by omega)).resK child rest c1 _ hrest h1.2 hsub
  -- gmr
  · intro child c hfuel hcoh hmem hsub
    obtain ⟨F', rfl⟩ : ∃ G, F = G + 1 :=
      ⟨F - 1, by unfold gmNeed at hfuel; omega⟩
    simp only [getMatchingResidues]
    by_cases hhit : c.hasResidueCache (byresKey child) = true
    · simp only [hhit, if_true]
      obtain ⟨m, hm⟩ : ∃ m,
          assocFind c.residueCache (byresKey child) = some m := by
        unfold Ctx.hasResidueCache at hhit
        exact Option.isSome_iff_exists.mp hhit
      obtain ⟨x, hx, hkey, hval⟩ := hcoh.2.1 _ (assocFind_mem _ _ _ hm)
      dsimp only at hkey hval
      have hsm := hKF.2.1 x hx child hmem hkey.symm
      refine ⟨?_, hcoh⟩
      show c.getResidueAtoms _ = _
      unfold Ctx.getResidueAtoms
      rw [hm]
      simp only [Option.getD_some]
      rw [hval]
      exact hsm
    · simp only [hhit, Bool.false_eq_true, if_false]
      have hmm : mmNeed child mol mol.length ≤ F' := by
        have h2 := mmNeed_le_gmNeed child mol
        unfold gmNeed at hfuel h2
        omega
      have hloop := (ih F' (by omega)).resK child mol c [] hmm hcoh hsub
      rcases hL : resFirstPass F' child mol mol c [] with ⟨keys, c1⟩
      rw [hL] at hloop
      simp only at hloop ⊢
      constructor
      · show (c1.setResidueAtoms _ _).getResidueAtoms _ = _
        unfold Ctx.getResidueAtoms Ctx.setResidueAtoms
        simp only [assocFind_assocSet_self, Option.getD_some]
        rw [hloop.1]
        rfl
      · obtain ⟨hA, hR, hC⟩ := hloop.2
        refine ⟨hA, ?_, hC⟩
        intro e he
        rcases mem_assocSet _ _ _ _ he with h | h
        · exact hR e h
        · refine ⟨child, hmem, by rw [h], ?_⟩
          rw [h]
          show _ = resSetSpec child mol
          rw [hloop.1]
          rfl
  -- chK
  · intro child atoms c acc hfuel hcoh hsub
    obtain ⟨F', rfl⟩ : ∃ G, F = G + 1 :=
      ⟨F - 1, by unfold mmNeed at hfuel; omega⟩
    cases atoms with
    | nil => exact ⟨rfl, hcoh⟩
    | cons b rest =>
        have hc := mmNeed_cons child b rest mol.length
        have hmmpos : predFuel child mol.length + 2
            ≤ mmNeed child rest mol.length := by unfold mmNeed; omega
        rw [hc] at hfuel
        have hfp : predFuel child mol.length ≤ F' := by omega
        have hrest : mmNeed child rest mol.length ≤ F' := by omega
        simp only [chainFirstPass, chainKeysFromFresh]
        have h1 := (ih F' (by omega)).ev child c b hfp hcoh hsub
        rcases hE : evalPred F' child mol c b with ⟨hit, c1⟩
        rw [hE] at h1
        simp only at h1 ⊢
        rw [h1.1]
        exact (ih F' (by omega)).chK child rest c1 _ hrest h1.2 hsub
  -- gmc
  · intro child c hfuel hcoh hmem hsub
    obtain ⟨F', rfl⟩ : ∃ G, F = G + 1 :=
      ⟨F - 1, by unfold gmNeed at hfuel; omega⟩
    simp only [getMatchingChainAtoms]
    by_cases hhit : c.hasChainCache (bychainKey child) = true
    · simp only [hhit, if_true]
      obtain ⟨m, hm⟩ : ∃ m,
          assocFind c.chainCache (bychainKey child) = some m := by
        unfold Ctx.hasChainCache at hhit
        exact Option.isSome_iff_exists.mp hhit
      obtain ⟨x, hx, hkey, hval⟩ := hcoh.2.2 _ (assocFind_mem _ _ _ hm)
      dsimp only at hkey hval
      have hsm := hKF.2.2 x hx child hmem hkey.symm
      refine ⟨?_, hcoh⟩
      show c.getChainAtoms _ = _
      unfold Ctx.getChainAtoms
      rw [hm]
      simp only [Option.getD_some]
      rw [hval]
      exact hsm
    · simp only [hhit, Bool.false_eq_true, if_false]
      have hmm : mmNeed child mol mol.length ≤ F' := by
        have h2 := mmNeed_le_gmNeed child mol
        unfold gmNeed at hfuel h2
        omega
      have hloop := (ih F' (by omega)).chK child mol c [] hmm hcoh hsub
      rcases hL : chainFirstPass F' child mol mol c [] with ⟨keys, c1⟩
      rw [hL] at hloop
      simp only at hloop ⊢
      constructor
      · show (c1.setChainAtoms _ _).getChainAtoms _ = _
        unfold Ctx.getChainAtoms Ctx.setChainAtoms
        simp only [assocFind_assocSet_self, Option.getD_some]
        rw [hloop.1]
        rfl
      · obtain ⟨hA, hR, hC⟩ := hloop.2
        refine ⟨hA, hR, ?_⟩
        intro e he
        rcases mem_assocSet _ _ _ _ he with h | h
        · exact hC e h
        · refine ⟨child, hmem, by rw [h], ?_⟩
          rw [h]
          show _ = chainSetSpec child mol
          rw [hloop.1]
          rfl


/-! ## C6: expansion completeness of `byres` and `bychain` -/

theorem subOf_refl (p : Pred) : SubOf p p :=
  ⟨fun _ h => h, fun _ h => h, fun _ h => h⟩

theorem mem_insertNew {α : Type} [DecidableEq α] (s : List α) (x k : α) :
    k ∈ insertNew s x ↔ k ∈ s ∨ k = x := by
  unfold insertNew
  split
  · rename_i h
    constructor
    · exact Or.inl
    · rintro (hk | rfl)
      · exact hk
      · simpa using h
  · simp

theorem mem_resKeysFromFresh (P : Pred) (mol : Molecule)
    (atoms : List Atom) (acc : List ResidueKey) (k : ResidueKey) :
    k ∈ resKeysFromFresh P mol atoms acc ↔
      k ∈ acc ∨ ∃ b ∈ atoms, evalFresh P mol b = true
        ∧ getResidueKey b = k := by
  induction atoms generalizing acc with
  | nil => simp [resKeysFromFresh]
  | cons b rest ih =>
      simp only [resKeysFromFresh]
      rw [ih]
      cases hb : evalFresh P mol b
      · simp only [Bool.false_eq_true, if_false, List.mem_cons]
        constructor
        · rintro (h | h)
          · exact Or.inl h
          · rcases h with ⟨b', hb', he', hk'⟩
            exact Or.inr ⟨b', Or.inr hb', he', hk'⟩
        · rintro (h | ⟨b', hb' | hb', he', hk'⟩)
          · exact Or.inl h
          · rw [hb'] at he'; rw [he'] at hb; cases hb
          · exact Or.inr ⟨b', hb', he', hk'⟩
      · simp only [if_true, mem_insertNew, List.mem_cons]
        constructor
        · rintro ((h | h) | h)
          · exact Or.inl h
          · exact Or.inr ⟨b, Or.inl rfl, hb, h.symm⟩
          · rcases h with ⟨b', hb', he', hk'⟩
            exact Or.inr ⟨b', Or.inr hb', he', hk'⟩
        · rintro (h | ⟨b', hb' | hb', he', hk'⟩)
          · exact Or.inl (Or.inl h)
          · rw [hb'] at hk'; exact Or.inl (Or.inr hk'.symm)
          · exact Or.inr ⟨b', hb', he', hk'⟩

theorem mem_chainKeysFromFresh (P : Pred) (mol : Molecule)
    (atoms : List Atom) (acc : List Char) (k : Char) :
    k ∈ chainKeysFromFresh P mol atoms acc ↔
      k ∈ acc ∨ ∃ b ∈ atoms, evalFresh P mol b = true
        ∧ b.chainId = k := by
  induction atoms generalizing acc with
  | nil => simp [chainKeysFromFresh]
  | cons b rest ih =>
      simp only [chainKeysFromFresh]
      rw [ih]
      cases hb : evalFresh P mol b
      · simp only [Bool.false_eq_true, if_false, List.mem_cons]
        constructor
        · rintro (h | h)
          · exact Or.inl h
          · rcases h with ⟨b', hb', he', hk'⟩
            exact Or.inr ⟨b', Or.inr hb', he', hk'⟩
        · rintro (h | ⟨b', hb' | hb', he', hk'⟩)
          · exact Or.inl h
          · rw [hb'] at he'; rw [he'] at hb; cases hb
          · exact Or.inr ⟨b', hb', he', hk'⟩
      · simp only [if_true, mem_insertNew, List.mem_cons]
        constructor
        · rintro ((h | h) | h)
          · exact Or.inl h
          · exact Or.inr ⟨b, Or.inl rfl, hb, h.symm⟩
          · rcases h with ⟨b', hb', he', hk'⟩
            exact Or.inr ⟨b', Or.inr hb', he', hk'⟩
        · rintro (h | ⟨b', hb' | hb', he', hk'⟩)
          · exact Or.inl (Or.inl h)
          · rw [hb'] at hk'; exact Or.inl (Or.inr hk'.symm)
          · exact Or.inr ⟨b', hb', he', hk'⟩

theorem resSetSpec_contains_iff (P : Pred) (mol : Molecule) (a : Atom)
    (ha : a ∈ mol) (hnd : (mol.map Atom.idx).Nodup) :
    ((resSetSpec P mol).contains a.idx = true ↔
      ∃ b ∈ mol, getResidueKey b = getResidueKey a
        ∧ evalFresh P mol b = true) := by
  unfold resSetSpec
  constructor
  · intro h
    have h' : a.idx ∈ (mol.filter (fun b =>
        (resKeysFromFresh P mol mol []).contains (getResidueKey b))).map
          (fun b => b.idx) := by simpa using h
    obtain ⟨x, hx, hxi⟩ := List.mem_map.mp h'
    obtain ⟨hxm, hf⟩ := List.mem_filter.mp hx
    have hxa : x = a := List.inj_on_of_nodup_map hnd hxm ha hxi
    subst hxa
    have hk : getResidueKey x ∈ resKeysFromFresh P mol mol [] := by
      simpa using hf
    rcases (mem_resKeysFromFresh P mol mol [] _).mp hk with
      h0 | ⟨b, hb, he, hkb⟩
    · simp at h0
    · exact ⟨b, hb, hkb, he⟩
  · rintro ⟨b, hb, hkb, he⟩
    have hk : getResidueKey a ∈ resKeysFromFresh P mol mol [] :=
      (mem_resKeysFromFresh P mol mol [] _).mpr
        (Or.inr ⟨b, hb, he, hkb⟩)
    have hfa : a ∈ mol.filter (fun b =>
        (resKeysFromFresh P mol mol []).contains (getResidueKey b)) :=
      List.mem_filter.mpr ⟨ha, by simpa using hk⟩
    simpa using List.mem_map.mpr ⟨a, hfa, rfl⟩

theorem chainSetSpec_contains_iff (P : Pred) (mol : Molecule) (a : Atom)
    (ha : a ∈ mol) (hnd : (mol.map Atom.idx).Nodup) :
    ((chainSetSpec P mol).contains a.idx = true ↔
      ∃ b ∈ mol, b.chainId = a.chainId ∧ evalFresh P mol b = true) := by
  unfold chainSetSpec
  constructor
  · intro h
    have h' : a.idx ∈ (mol.filter (fun b =>
        (chainKeysFromFresh P mol mol []).contains b.chainId)).map
          (fun b => b.idx) := by simpa using h
    obtain ⟨x, hx, hxi⟩ := List.mem_map.mp h'
    obtain ⟨hxm, hf⟩ := List.mem_filter.mp hx
    have hxa : x = a := List.inj_on_of_nodup_map hnd hxm ha hxi
    subst hxa
    have hk : x.chainId ∈ chainKeysFromFresh P mol mol [] := by
      simpa using hf
    rcases (mem_chainKeysFromFresh P mol mol [] _).mp hk with
      h0 | ⟨b, hb, he, hkb⟩
    · simp at h0
    · exact ⟨b, hb, hkb, he⟩
  · rintro ⟨b, hb, hkb, he⟩
    have hk : a.chainId ∈ chainKeysFromFresh P mol mol [] :=
      (mem_chainKeysFromFresh P mol mol [] _).mpr
        (Or.inr ⟨b, hb, he, hkb⟩)
    have hfa : a ∈ mol.filter (fun b =>
        (chainKeysFromFresh P mol mol []).contains b.chainId) :=
      List.mem_filter.mpr ⟨ha, by simpa using hk⟩
    simpa using List.mem_map.mpr ⟨a, hfa, rfl⟩

/-- **C6.** Expansion completeness: evaluated from a fresh context,
`byres P` matches an atom of the molecule iff some atom of the molecule
sharing its (chain id, residue number, insertion code) key matches `P`,
and `bychain P` matches it iff some atom sharing its chain id matches
`P`.  (Atom indices are assumed distinct, as `GetAtoms` order indices
are; cache keys are assumed faithful, as the specification stipulates
for canonical-string equality.) -/
theorem C6_expansion_completeness (P : Pred) (mol : Molecule) (a : Atom)
    (ha : a ∈ mol) (hnd : (mol.map Atom.idx).Nodup)
    (hKFr : KeyFaithful (.byres P) mol)
    (hKFc : KeyFaithful (.bychain P) mol) :
    ((evalP (.byres P) mol freshCtx a).1 = true ↔
      ∃ b ∈ mol, getResidueKey b = getResidueKey a
        ∧ evalFresh P mol b = true) ∧
    ((evalP (.bychain P) mol freshCtx a).1 = true ↔
      ∃ b ∈ mol, b.chainId = a.chainId ∧ evalFresh P mol b = true) := by
  constructor
  · obtain ⟨hmem, hsubP⟩ := subOf_byres (subOf_refl (.byres P))
    have h := (refineAll (.byres P) mol hKFr (gmNeed P mol.length)).gmr P
      freshCtx (le_refl _) (coh_freshCtx _ _) hmem hsubP
    have he : (evalP (.byres P) mol freshCtx a).1
        = (getMatchingResidues (gmNeed P mol.length) P mol
            freshCtx).1.contains a.idx := rfl
    rw [he, h.1]
    exact resSetSpec_contains_iff P mol a ha hnd
  · obtain ⟨hmem, hsubP⟩ := subOf_bychain (subOf_refl (.bychain P))
    have h := (refineAll (.bychain P) mol hKFc (gmNeed P mol.length)).gmc P
      freshCtx (le_refl _) (coh_freshCtx _ _) hmem hsubP
    have he : (evalP (.bychain P) mol freshCtx a).1
        = (getMatchingChainAtoms (gmNeed P mol.length) P mol
            freshCtx).1.contains a.idx := rfl
    rw [he, h.1]
    exact chainSetSpec_contains_iff P mol a ha hnd

/-- Witness for C6 at a concrete molecule: two atoms of one alanine
residue on chain `A`; the `N` atom is matched by `byres (name C)` and
`bychain (name C)` because the `C` atom matches. -/
theorem C6_witness :
    ((evalP (.byres (.name ['C']))
        [⟨0, ['C'], 6, ['A','L','A'], 1, 'A', ' ', 0, 0, 0, 0, []⟩,
         ⟨1, ['N'], 7, ['A','L','A'], 1, 'A', ' ', 0, 0, 0, 0, []⟩]
        freshCtx
        ⟨1, ['N'], 7, ['A','L','A'], 1, 'A', ' ', 0, 0, 0, 0, []⟩).1
          = true ↔
      ∃ b ∈ ([⟨0, ['C'], 6, ['A','L','A'], 1, 'A', ' ', 0, 0, 0, 0, []⟩,
         ⟨1, ['N'], 7, ['A','L','A'], 1, 'A', ' ', 0, 0, 0, 0, []⟩] :
           Molecule),
        getResidueKey b = getResidueKey
          ⟨1, ['N'], 7, ['A','L','A'], 1, 'A', ' ', 0, 0, 0, 0, []⟩
        ∧ evalFresh (.name ['C'])
            [⟨0, ['C'], 6, ['A','L','A'], 1, 'A', ' ', 0, 0, 0, 0, []⟩,
             ⟨1, ['N'], 7, ['A','L','A'], 1, 'A', ' ', 0, 0, 0, 0, []⟩]
            b = true) ∧
    ((evalP (.bychain (.name ['C']))
        [⟨0, ['C'], 6, ['A','L','A'], 1, 'A', ' ', 0, 0, 0, 0, []⟩,
         ⟨1, ['N'], 7, ['A','L','A'], 1, 'A', ' ', 0, 0, 0, 0, []⟩]
        freshCtx
        ⟨1, ['N'], 7, ['A','L','A'], 1, 'A', ' ', 0, 0, 0, 0, []⟩).1
          = true ↔
      ∃ b ∈ ([⟨0, ['C'], 6, ['A','L','A'], 1, 'A', ' ', 0, 0, 0, 0, []⟩,
         ⟨1, ['N'], 7, ['A','L','A'], 1, 'A', ' ', 0, 0, 0, 0, []⟩] :
           Molecule),
        b.chainId = Atom.chainId
          ⟨1, ['N'], 7, ['A','L','A'], 1, 'A', ' ', 0, 0, 0, 0, []⟩
        ∧ evalFresh (.name ['C'])
            [⟨0, ['C'], 6, ['A','L','A'], 1, 'A', ' ', 0, 0, 0, 0, []⟩,
             ⟨1, ['N'], 7, ['A','L','A'], 1, 'A', ' ', 0, 0, 0, 0, []⟩]
            b = true) :=
  C6_expansion_completeness (.name ['C'])
    [⟨0, ['C'], 6, ['A','L','A'], 1, 'A', ' ', 0, 0, 0, 0, []⟩,
     ⟨1, ['N'], 7, ['A','L','A'], 1, 'A', ' ', 0, 0, 0, 0, []⟩]
    ⟨1, ['N'], 7, ['A','L','A'], 1, 'A', ' ', 0, 0, 0, 0, []⟩
    (by decide) (by decide)
    (by unfold KeyFaithful; decide) (by unfold KeyFaithful; decide)

end OESel

